import Mathlib

/-!
# product-sync: shallow embedding and verification

A shallow embedding of the `product-sync` repository (canonical product model,
the Shopify / WooCommerce / eBay adapters, and the Shopify sync reconciler),
with theorems settling the frozen claims about it.

Modelling conventions:
* JavaScript strings are `List Char` (`Str`).
* JavaScript numbers that arise here are exact decimals (`Dec`), with `NaN`
  modelled as `Option.none` (`JsNum := Option Dec`).  The code performs no
  arithmetic on prices, only `parseFloat`, `toString`, comparison and
  truthiness, so exact decimals are a faithful carrier.  `parseFloat` is
  modelled on the sign/digits/decimal-point fragment (no exponents and no
  `Infinity`; the repository never produces either).
* JSON values are the inductive `Json`; numbers in metadata are integers
  (platform ids), which is all the repository ever stores.  `JSON.stringify`
  and `JSON.parse` are an executable renderer and parser over `Str` with a
  proved round trip.
* `uuidv4()` (ShopifyAdapter) is modelled by an explicit fresh-name counter
  threaded through `fromPlatform`; distinct counter states yield distinct ids.
* `undefined`-vs-present distinctions that the code observes are modelled with
  `Option`; JS truthiness (`x || y`, `x ? a : b`) is modelled per type.
-/

set_option synthInstance.maxHeartbeats 1000000
set_option maxHeartbeats 1600000

namespace ProductSync

/-! ## JS strings -/

/-- A JavaScript string, as a list of characters. -/
abbrev Str := List Char

/-- JS string truthiness: every string except `""` is truthy. -/
def strTruthy (s : Str) : Bool := !s.isEmpty

/-- JS `a || b` on strings. -/
def strOr (a b : Str) : Str := if strTruthy a then a else b

/-- JS `a || b` where `a : string | undefined`. -/
def strOrElse (a : Option Str) (b : Str) : Str :=
  match a with
  | some s => strOr s b
  | none => b

theorem strOr_truthy (a b : Str) (h : strTruthy a = true) : strOr a b = a := by
  simp [strOr, h]

theorem strOr_falsy (a b : Str) (h : strTruthy a = false) : strOr a b = b := by
  simp [strOr, h]

/-! ## Decimal digit strings -/

/-- The character for decimal digit `d`. -/
def digitChar (d : Nat) : Char := Char.ofNat (48 + d)

/-- The numeric value of a digit character. -/
def digitVal (c : Char) : Nat := c.toNat - 48

/-- Fuel-indexed digit emitter (structural in the fuel, so concrete values
    reduce inside the kernel). -/
def natCharsF : Nat → Nat → Str
  | 0, _ => []
  | fuel + 1, n =>
      if n < 10 then [digitChar n]
      else natCharsF fuel (n / 10) ++ [digitChar (n % 10)]

/-- Decimal digit characters of `n`, most significant first (like JS
    `Number.prototype.toString` for naturals). -/
def natChars (n : Nat) : Str := natCharsF (n + 1) n

theorem natCharsF_congr : ∀ (f1 f2 n : Nat), n < f1 → n < f2 →
    natCharsF f1 n = natCharsF f2 n := by
  intro f1
  induction f1 with
  | zero => intro f2 n h1 h2; omega
  | succ f ih =>
      intro f2 n h1 h2
      cases f2 with
      | zero => omega
      | succ g =>
          rw [natCharsF, natCharsF]
          by_cases hn : n < 10
          · rw [if_pos hn, if_pos hn]
          · rw [if_neg hn, if_neg hn]
            have hlt : n / 10 < n := Nat.div_lt_self (by omega) (by omega)
            rw [ih g (n / 10) (by omega) (by omega)]

/-- The recursion `natChars` satisfies. -/
theorem natChars_eq (n : Nat) :
    natChars n = if n < 10 then [digitChar n]
      else natChars (n / 10) ++ [digitChar (n % 10)] := by
  rw [natChars, natCharsF]
  by_cases hn : n < 10
  · rw [if_pos hn, if_pos hn]
  · rw [if_neg hn, if_neg hn]
    have hlt : n / 10 < n := Nat.div_lt_self (by omega) (by omega)
    rw [natCharsF_congr n (n / 10 + 1) (n / 10) (by omega) (by omega)]
    rfl

/-- Characters of an integer: optional minus sign, then digits. -/
def intChars (i : Int) : Str :=
  (if i < 0 then ['-'] else []) ++ natChars i.natAbs

/-- Longest digit prefix of a character list, and the remainder. -/
def grabDigits : Str → Str × Str
  | [] => ([], [])
  | c :: cs =>
      if c.isDigit then
        let (ds, r) := grabDigits cs
        (c :: ds, r)
      else ([], c :: cs)

/-- Value of a digit string, most significant first. -/
def digitsNat (ds : Str) : Nat := ds.foldl (fun a c => a * 10 + digitVal c) 0

theorem digitsNat_append_digit (ds : Str) (c : Char) :
    digitsNat (ds ++ [c]) = digitsNat ds * 10 + digitVal c := by
  simp [digitsNat, List.foldl_append]

theorem digitChar_isDigit {d : Nat} (h : d < 10) : (digitChar d).isDigit = true := by
  interval_cases d <;> decide

theorem digitVal_digitChar {d : Nat} (h : d < 10) : digitVal (digitChar d) = d := by
  interval_cases d <;> decide

theorem natChars_ne_nil (n : Nat) : natChars n ≠ [] := by
  rw [natChars_eq]
  split <;> simp

theorem natChars_all_digits (n : Nat) : ∀ c ∈ natChars n, c.isDigit = true := by
  induction n using Nat.strong_induction_on with
  | _ n ih =>
    rw [natChars_eq]
    split
    · intro c hc
      rw [List.mem_singleton] at hc
      subst hc
      exact digitChar_isDigit (by omega)
    · intro c hc
      rw [List.mem_append] at hc
      rcases hc with hc | hc
      · exact ih (n / 10) (Nat.div_lt_self (by omega) (by omega)) c hc
      · rw [List.mem_singleton] at hc
        subst hc
        exact digitChar_isDigit (Nat.mod_lt _ (by omega))

theorem digitsNat_natChars (n : Nat) : digitsNat (natChars n) = n := by
  induction n using Nat.strong_induction_on with
  | _ n ih =>
    rw [natChars_eq]
    split
    · rename_i h
      simp [digitsNat, digitVal_digitChar h]
    · rename_i h
      rw [digitsNat_append_digit, ih (n / 10) (Nat.div_lt_self (by omega) (by omega)),
        digitVal_digitChar (Nat.mod_lt _ (by omega))]
      omega

/-- `natChars` is injective (two naturals with the same decimal string are equal). -/
theorem natChars_injective {m n : Nat} (h : natChars m = natChars n) : m = n := by
  have := digitsNat_natChars m
  rw [h, digitsNat_natChars] at this
  omega

theorem grabDigits_not_digit {c : Char} {cs : Str} (h : c.isDigit = false) :
    grabDigits (c :: cs) = ([], c :: cs) := by
  simp [grabDigits, h]

/-- A remainder that cannot extend a digit run: empty or headed by a non-digit. -/
def digitStop : Str → Bool
  | [] => true
  | c :: _ => !c.isDigit

theorem grabDigits_stop {cs : Str} (h : digitStop cs = true) : grabDigits cs = ([], cs) := by
  match cs with
  | [] => rfl
  | c :: t =>
      simp only [digitStop, Bool.not_eq_true'] at h
      exact grabDigits_not_digit h

/-- `grabDigits` consumes exactly a leading digit run. -/
theorem grabDigits_run (ds : Str) (hds : ∀ c ∈ ds, c.isDigit = true)
    (rest : Str) (hrest : digitStop rest = true) :
    grabDigits (ds ++ rest) = (ds, rest) := by
  induction ds with
  | nil => simpa using grabDigits_stop hrest
  | cons c t ih =>
      have hc : c.isDigit = true := hds c (by simp)
      have ht := ih (fun x hx => hds x (by simp [hx]))
      simp [grabDigits, hc, ht]

/-! ## JS numbers

The numbers this repository manipulates are exact decimals produced by
`parseFloat` on price strings (plus integer literals); `NaN` is `none`. -/

/-- An exact decimal: sign, integer part, fraction digits (each `< 10`).
    Canonical form (`Dec.wf`) has no trailing zero in `fr` and no negative zero. -/
structure Dec where
  neg : Bool
  ip : Nat
  fr : List Nat
deriving DecidableEq, Repr

/-- The decimal `0`. -/
def decZero : Dec := ⟨false, 0, []⟩

/-- Canonical form: fraction digits are digits, no trailing zero, no `-0`. -/
def Dec.wf (d : Dec) : Prop :=
  (∀ x ∈ d.fr, x < 10) ∧ d.fr.getLast? ≠ some 0 ∧ (d.neg = true → ¬(d.ip = 0 ∧ d.fr = []))

instance (d : Dec) : Decidable d.wf := by
  unfold Dec.wf
  infer_instance

/-- A JS number: `none` is `NaN`. -/
abbrev JsNum := Option Dec

/-- JS number truthiness: `0` and `NaN` are falsy. -/
def numTruthy (n : JsNum) : Bool :=
  match n with
  | none => false
  | some d => d ≠ decZero

/-- Truthiness of `number | undefined` (for `compareAtPrice`). -/
def optNumTruthy (n : Option JsNum) : Bool :=
  match n with
  | none => false
  | some v => numTruthy v

/-- JS `a || b` where `a : number | undefined` and `b : number`. -/
def optNumOr (a : Option JsNum) (b : JsNum) : JsNum :=
  match a with
  | some v => if numTruthy v then v else b
  | none => b

/-- Strip trailing zeros from fraction digits. -/
def stripZeros (fr : List Nat) : List Nat :=
  (fr.reverse.dropWhile (· = 0)).reverse

/-- Build a canonical `Dec` (normalises trailing zeros and `-0`). -/
def mkDec (neg : Bool) (ip : Nat) (fr : List Nat) : Dec :=
  let fr' := stripZeros fr
  if ip = 0 ∧ fr' = [] then decZero else ⟨neg, ip, fr'⟩

/-- Render a decimal the way JS `Number.prototype.toString` does. -/
def Dec.chars (d : Dec) : Str :=
  (if d.neg then ['-'] else []) ++ natChars d.ip ++
    (if d.fr.isEmpty then [] else '.' :: d.fr.map digitChar)

/-- JS `toString()` on a number (`NaN` included). -/
def numChars (n : JsNum) : Str :=
  match n with
  | none => ['N', 'a', 'N']
  | some d => d.chars

/-- Split a leading `-`/`+` sign off a character list. -/
def splitSign (cs : Str) : Bool × Str :=
  match cs with
  | [] => (false, [])
  | c :: r => if c = '-' then (true, r) else if c = '+' then (false, r) else (false, c :: r)

/-- Split a leading `.` off a character list. -/
def splitDot (cs : Str) : Option Str :=
  match cs with
  | [] => none
  | c :: r => if c = '.' then some r else none

/-- Parse an optional sign and a decimal literal (digits, optional `.digits`),
    returning the value and the remainder.  At least one digit is required
    overall (JS accepts `.5` and `5.`). -/
def parseDecAux (cs : Str) : Option (Dec × Str) :=
  let sg := splitSign cs
  let ipr := grabDigits sg.2
  match splitDot ipr.2 with
  | some r =>
      let frr := grabDigits r
      if ipr.1.isEmpty ∧ frr.1.isEmpty then none
      else some (mkDec sg.1 (digitsNat ipr.1) (frr.1.map digitVal), frr.2)
  | none =>
      if ipr.1.isEmpty then none
      else some (mkDec sg.1 (digitsNat ipr.1) [], ipr.2)

/-- JS `parseFloat`: skip leading whitespace, parse a decimal prefix, `NaN`
    when none is found. -/
def parseFloat (s : Str) : JsNum :=
  (parseDecAux (s.dropWhile Char.isWhitespace)).map Prod.fst

/-- JS `Number(...)`: the whole (trimmed) string must be numeric; `Number("") = 0`. -/
def jsNumber (s : Str) : JsNum :=
  let t := (s.dropWhile Char.isWhitespace).reverse.dropWhile Char.isWhitespace |>.reverse
  if t.isEmpty then some decZero
  else
    match parseDecAux t with
    | some (d, []) => some d
    | _ => none

/-- JS `a !== b` on two numbers (`NaN !== NaN` is `true`). -/
def numNe (a b : JsNum) : Bool :=
  match a, b with
  | some x, some y => x ≠ y
  | _, _ => true

/-! ### The number codec round trip -/

theorem digitVal_lt_ten {c : Char} (h : c.isDigit = true) : digitVal c < 10 := by
  simp only [Char.isDigit, Bool.and_eq_true, decide_eq_true_eq] at h
  have h1 : ('0' : Char).toNat ≤ c.toNat := h.1
  have h2 : c.toNat ≤ ('9' : Char).toNat := h.2
  have e0 : ('0' : Char).toNat = 48 := rfl
  have e9 : ('9' : Char).toNat = 57 := rfl
  simp only [digitVal]
  omega

theorem digit_not_ws {c : Char} (h : c.isDigit = true) : c.isWhitespace = false := by
  simp only [Char.isDigit, Bool.and_eq_true, decide_eq_true_eq] at h
  have h1 : ('0' : Char).toNat ≤ c.toNat := h.1
  simp only [Char.isWhitespace, Bool.or_eq_false_iff, decide_eq_false_iff_not]
  refine ⟨⟨⟨?_, ?_⟩, ?_⟩, ?_⟩ <;> (intro hc; subst hc; revert h1; decide)

theorem grabDigits_digits : ∀ cs : Str, ∀ c ∈ (grabDigits cs).1, c.isDigit = true := by
  intro cs
  induction cs with
  | nil => simp [grabDigits]
  | cons c t ih =>
      by_cases hc : c.isDigit = true
      · simp only [grabDigits, hc, if_pos]
        intro x hx
        rcases List.mem_cons.mp hx with h | h
        · subst h; exact hc
        · exact ih x h
      · simp [grabDigits, hc]

theorem dropWhile_head_ne_zero : ∀ l : List Nat, (l.dropWhile (· = 0)).head? ≠ some 0 := by
  intro l
  induction l with
  | nil => simp
  | cons a t ih =>
      by_cases ha : a = 0
      · subst ha; simpa [List.dropWhile] using ih
      · simp [List.dropWhile, ha]

theorem dropWhile_mem {p : Nat → Bool} : ∀ l : List Nat, ∀ x ∈ l.dropWhile p, x ∈ l := by
  intro l
  induction l with
  | nil => simp
  | cons a t ih =>
      intro x hx
      rw [List.dropWhile_cons] at hx
      by_cases ha : p a = true
      · simp only [ha, if_pos] at hx
        exact List.mem_cons_of_mem a (ih x hx)
      · rw [if_neg ha] at hx
        exact hx

theorem dropWhile_head_false {p : Nat → Bool} :
    ∀ {l : List Nat}, (∀ a, l.head? = some a → p a = false) → l.dropWhile p = l := by
  intro l h
  cases l with
  | nil => rfl
  | cons a t =>
      rw [List.dropWhile_cons, if_neg]
      rw [h a rfl]
      simp

theorem stripZeros_getLast (fr : List Nat) : (stripZeros fr).getLast? ≠ some 0 := by
  simp only [stripZeros, List.getLast?_reverse]
  exact dropWhile_head_ne_zero fr.reverse

theorem stripZeros_subset (fr : List Nat) : ∀ x ∈ stripZeros fr, x ∈ fr := by
  intro x hx
  simp only [stripZeros, List.mem_reverse] at hx
  exact List.mem_reverse.mp (dropWhile_mem fr.reverse x hx)

theorem stripZeros_eq_self {fr : List Nat} (h : fr.getLast? ≠ some 0) : stripZeros fr = fr := by
  have hd : fr.reverse.dropWhile (· = 0) = fr.reverse := by
    apply dropWhile_head_false
    intro a ha
    simp only [decide_eq_false_iff_not]
    intro h0
    subst h0
    rw [← List.head?_reverse] at h
    exact h ha
  simp only [stripZeros, hd, List.reverse_reverse]

theorem mkDec_wf (neg : Bool) (ip : Nat) (fr : List Nat) (hfr : ∀ x ∈ fr, x < 10) :
    (mkDec neg ip fr).wf := by
  simp only [mkDec]
  split
  · exact ⟨by simp [decZero], by simp [decZero], by simp [decZero]⟩
  · rename_i h
    refine ⟨fun x hx => hfr x (stripZeros_subset fr x hx), stripZeros_getLast fr, ?_⟩
    intro _ hc
    exact h ⟨hc.1, hc.2⟩

theorem mkDec_id {d : Dec} (h : d.wf) : mkDec d.neg d.ip d.fr = d := by
  obtain ⟨neg, ip, fr⟩ := d
  obtain ⟨_, hlast, hneg⟩ := h
  simp only [mkDec, stripZeros_eq_self hlast]
  split
  · rename_i hz
    cases neg with
    | false => simp [decZero, hz.1, hz.2]
    | true => exact absurd ⟨hz.1, hz.2⟩ (hneg rfl)
  · rfl

theorem parseDecAux_wf {cs : Str} {d : Dec} {r : Str} (h : parseDecAux cs = some (d, r)) :
    d.wf := by
  simp only [parseDecAux] at h
  split at h
  · split at h
    · exact absurd h (by simp)
    · rw [Option.some.injEq, Prod.mk.injEq] at h
      rw [← h.1]
      refine mkDec_wf _ _ _ ?_
      intro x hx
      obtain ⟨c, hc, rfl⟩ := List.mem_map.mp hx
      exact digitVal_lt_ten (grabDigits_digits _ c hc)
  · split at h
    · exact absurd h (by simp)
    · rw [Option.some.injEq, Prod.mk.injEq] at h
      rw [← h.1]
      exact mkDec_wf _ _ _ (by simp)

/-- A remainder that cannot extend a decimal literal. -/
def decStop : Str → Bool
  | [] => true
  | c :: _ => !(c.isDigit || c == '.')

theorem decStop_digitStop {cs : Str} (h : decStop cs = true) : digitStop cs = true := by
  match cs with
  | [] => rfl
  | c :: t =>
      simp only [decStop, Bool.not_eq_true', Bool.or_eq_false_iff] at h
      simp [digitStop, h.1]

theorem decStop_not_dot {cs : Str} (h : decStop cs = true) : splitDot cs = none := by
  match cs with
  | [] => rfl
  | c :: t =>
      simp only [decStop, Bool.not_eq_true', Bool.or_eq_false_iff, beq_eq_false_iff_ne] at h
      simp [splitDot, h.2]

theorem splitSign_digit {c : Char} (cs : Str) (h : c.isDigit = true) :
    splitSign (c :: cs) = (false, c :: cs) := by
  have hm : c ≠ '-' := by intro hc; subst hc; simp at h
  have hp : c ≠ '+' := by intro hc; subst hc; simp at h
  simp [splitSign, hm, hp]

theorem map_digitVal_digitChar {fr : List Nat} (h : ∀ x ∈ fr, x < 10) :
    (fr.map digitChar).map digitVal = fr := by
  induction fr with
  | nil => rfl
  | cons a t ih =>
      simp only [List.map_cons, List.cons.injEq]
      exact ⟨digitVal_digitChar (h a (by simp)), ih (fun x hx => h x (by simp [hx]))⟩

/-- `parseDecAux` inverts `Dec.chars` for canonical decimals. -/
theorem parseDecAux_chars {d : Dec} (hd : d.wf) (rest : Str) (hr : decStop rest = true) :
    parseDecAux (d.chars ++ rest) = some (d, rest) := by
  obtain ⟨neg, ip, fr⟩ := d
  have hdigs := natChars_all_digits ip
  obtain ⟨c0, t0, hip⟩ : ∃ c0 t0, natChars ip = c0 :: t0 := by
    cases h : natChars ip with
    | nil => exact absurd h (natChars_ne_nil ip)
    | cons a b => exact ⟨a, b, rfl⟩
  have hne : (natChars ip).isEmpty = false := by simp [hip]
  have hfrd : ∀ c ∈ fr.map digitChar, c.isDigit = true := by
    intro c hc
    obtain ⟨x, hx, rfl⟩ := List.mem_map.mp hc
    exact digitChar_isDigit (hd.1 x hx)
  cases hfr : fr.isEmpty with
  | true =>
      rw [List.isEmpty_iff] at hfr
      subst hfr
      have hchars : Dec.chars ⟨neg, ip, []⟩ ++ rest
          = (if neg then ['-'] else []) ++ (natChars ip ++ rest) := by
        simp [Dec.chars]
      have hgrab : grabDigits (natChars ip ++ rest) = (natChars ip, rest) :=
        grabDigits_run _ hdigs _ (decStop_digitStop hr)
      have hsign : splitSign ((if neg then ['-'] else []) ++ (natChars ip ++ rest))
          = (neg, natChars ip ++ rest) := by
        cases neg with
        | false =>
            rw [if_neg (by simp), List.nil_append, hip, List.cons_append,
              splitSign_digit _ (hdigs c0 (hip ▸ List.mem_cons_self c0 t0))]
        | true => simp [splitSign]
      rw [hchars]
      simp only [parseDecAux, hsign, hgrab, decStop_not_dot hr, hne]
      simp [digitsNat_natChars, mkDec_id hd]
  | false =>
      have hfrn : fr ≠ [] := by
        intro h0
        rw [h0] at hfr
        simp at hfr
      have hchars : Dec.chars ⟨neg, ip, fr⟩ ++ rest
          = (if neg then ['-'] else [])
            ++ (natChars ip ++ ('.' :: (fr.map digitChar ++ rest))) := by
        simp [Dec.chars, hfr]
      have hstop : digitStop ('.' :: (fr.map digitChar ++ rest)) = true := rfl
      have hgrab : grabDigits (natChars ip ++ ('.' :: (fr.map digitChar ++ rest)))
          = (natChars ip, '.' :: (fr.map digitChar ++ rest)) :=
        grabDigits_run _ hdigs _ hstop
      have hgrab2 : grabDigits (fr.map digitChar ++ rest) = (fr.map digitChar, rest) :=
        grabDigits_run _ hfrd _ (decStop_digitStop hr)
      have hsign : splitSign ((if neg then ['-'] else [])
            ++ (natChars ip ++ ('.' :: (fr.map digitChar ++ rest))))
          = (neg, natChars ip ++ ('.' :: (fr.map digitChar ++ rest))) := by
        cases neg with
        | false =>
            rw [if_neg (by simp), List.nil_append, hip, List.cons_append,
              splitSign_digit _ (hdigs c0 (hip ▸ List.mem_cons_self c0 t0))]
        | true => simp [splitSign]
      rw [hchars]
      simp only [parseDecAux, hsign, hgrab, splitDot, if_pos rfl, hgrab2, hne]
      simp [hgrab2, digitsNat_natChars, map_digitVal_digitChar hd.1, mkDec_id hd, hfrn]

/-- The first character of a rendered decimal: a minus sign or a digit. -/
theorem chars_head_not_ws (d : Dec) :
    ∀ c, (Dec.chars d).head? = some c → c.isWhitespace = false := by
  obtain ⟨neg, ip, fr⟩ := d
  obtain ⟨c1, t1, hip⟩ : ∃ c1 t1, natChars ip = c1 :: t1 := by
    cases hnc : natChars ip with
    | nil => exact absurd hnc (natChars_ne_nil ip)
    | cons a b => exact ⟨a, b, rfl⟩
  intro c hc
  simp only [Dec.chars] at hc
  cases neg with
  | false =>
      rw [hip] at hc
      simp at hc
      subst hc
      exact digit_not_ws (natChars_all_digits ip c1 (hip ▸ List.mem_cons_self c1 t1))
  | true =>
      simp at hc
      subst hc
      decide

/-- `parseFloat` inverts JS `toString` on every (canonical) number, `NaN` included. -/
theorem parseFloat_numChars {n : JsNum} (h : ∀ d, n = some d → d.wf) :
    parseFloat (numChars n) = n := by
  cases n with
  | none => decide
  | some d =>
      have hd := h d rfl
      have hdrop : (numChars (some d)).dropWhile Char.isWhitespace = numChars (some d) := by
        cases hcc : numChars (some d) with
        | nil => rfl
        | cons a t =>
            rw [List.dropWhile_cons, if_neg]
            rw [chars_head_not_ws d a (by simpa [numChars] using congrArg List.head? hcc)]
            simp
      have hbody : parseDecAux (numChars (some d)) = some (d, []) := by
        have := parseDecAux_chars hd [] (by decide)
        simpa [numChars] using this
      simp [parseFloat, hdrop, hbody]

/-- Rendered numbers are never the empty string (JS truthiness of the result). -/
theorem numChars_ne_nil (n : JsNum) : numChars n ≠ [] := by
  cases n with
  | none => decide
  | some d =>
      obtain ⟨neg, ip, fr⟩ := d
      simp only [numChars, Dec.chars]
      intro h
      rw [List.append_eq_nil, List.append_eq_nil] at h
      exact natChars_ne_nil ip h.1.2

/-! ## JSON values

JS values stored in `meta` / `meta_data` and carried through the eBay SKU
encoding.  Numbers are integers (the repository stores only platform ids). -/

/-- A JSON value. -/
inductive Json where
  | null
  | bool (b : Bool)
  | num (n : Int)
  | str (s : Str)
  | arr (elems : List Json)
  | obj (fields : List (Str × Json))
deriving Repr

mutual

def Json.beq : Json → Json → Bool
  | .null, .null => true
  | .bool a, .bool b => a = b
  | .num a, .num b => a = b
  | .str a, .str b => a = b
  | .arr a, .arr b => Json.beqList a b
  | .obj a, .obj b => Json.beqFields a b
  | _, _ => false

def Json.beqList : List Json → List Json → Bool
  | [], [] => true
  | a :: as, b :: bs => Json.beq a b && Json.beqList as bs
  | _, _ => false

def Json.beqFields : List (Str × Json) → List (Str × Json) → Bool
  | [], [] => true
  | (k, v) :: as, (k2, v2) :: bs => k = k2 && Json.beq v v2 && Json.beqFields as bs
  | _, _ => false

end

mutual

theorem Json.beq_iff : ∀ a b : Json, Json.beq a b = true ↔ a = b
  | .null, b => by cases b <;> simp [Json.beq]
  | .bool x, b => by cases b <;> simp [Json.beq]
  | .num x, b => by cases b <;> simp [Json.beq]
  | .str x, b => by cases b <;> simp [Json.beq]
  | .arr xs, b => by
      cases b with
      | arr ys => simpa only [Json.beq, Json.arr.injEq] using Json.beqList_iff xs ys
      | null => simp [Json.beq]
      | bool y => simp [Json.beq]
      | num y => simp [Json.beq]
      | str y => simp [Json.beq]
      | obj ys => simp [Json.beq]
  | .obj xs, b => by
      cases b with
      | obj ys => simpa only [Json.beq, Json.obj.injEq] using Json.beqFields_iff xs ys
      | null => simp [Json.beq]
      | bool y => simp [Json.beq]
      | num y => simp [Json.beq]
      | str y => simp [Json.beq]
      | arr ys => simp [Json.beq]

theorem Json.beqList_iff : ∀ a b : List Json, Json.beqList a b = true ↔ a = b
  | [], b => by cases b <;> simp [Json.beqList]
  | x :: xs, b => by
      cases b with
      | nil => simp [Json.beqList]
      | cons y ys =>
          simp only [Json.beqList, Bool.and_eq_true, List.cons.injEq]
          rw [Json.beq_iff, Json.beqList_iff]

theorem Json.beqFields_iff : ∀ a b : List (Str × Json), Json.beqFields a b = true ↔ a = b
  | [], b => by cases b <;> simp [Json.beqFields]
  | (k, v) :: xs, b => by
      cases b with
      | nil => simp [Json.beqFields]
      | cons y ys =>
          obtain ⟨k2, v2⟩ := y
          simp only [Json.beqFields, Bool.and_eq_true, List.cons.injEq, Prod.mk.injEq,
            decide_eq_true_eq, Json.beq_iff, Json.beqFields_iff]

end

instance : DecidableEq Json := fun a b =>
  decidable_of_iff (Json.beq a b = true) (Json.beq_iff a b)

/-- The empty JSON object `{}`. -/
def jEmpty : Json := .obj []

/-- JS truthiness of a JSON value (objects and arrays are always truthy). -/
def Json.truthy : Json → Bool
  | .null => false
  | .bool b => b
  | .num n => n ≠ 0
  | .str s => !s.isEmpty
  | .arr _ => true
  | .obj _ => true

/-- Property access `j.k` / `j?.k`: an own field of an object; `none`
    (JS `undefined`) for missing fields and non-objects. -/
def Json.get (j : Json) (k : Str) : Option Json :=
  match j with
  | .obj fields => (fields.find? (fun f => f.1 = k)).map Prod.snd
  | _ => none

/-- JS `x || dflt` where `x : any | undefined`. -/
def jsonOrElse (x : Option Json) (dflt : Json) : Json :=
  match x with
  | some v => if v.truthy then v else dflt
  | none => dflt

/-- The own enumerable fields of a JS value (spreading a non-object yields none). -/
def Json.fieldsOf : Json → List (Str × Json)
  | .obj fields => fields
  | _ => []

/-- Set key `k` to `v` in a field list the way JS object spread does: replace
    in place when present, append otherwise. -/
def setField (fields : List (Str × Json)) (k : Str) (v : Json) : List (Str × Json) :=
  match fields with
  | [] => [(k, v)]
  | (k1, v1) :: rest =>
      if k1 = k then (k1, v) :: rest else (k1, v1) :: setField rest k v

/-- The JS object literal `{...base, k: v}`. -/
def spreadWith (base : Json) (k : Str) (v : Json) : Json :=
  .obj (setField base.fieldsOf k v)

/-- JS `toString()` under optional chaining: `null`/`undefined` propagate as
    `none`; numbers and strings render; other values as JS renders them
    (arrays via join, objects as "[object Object]"). -/
def Json.toStr : Json → Option Str
  | .null => none
  | .bool true => some ['t', 'r', 'u', 'e']
  | .bool false => some ['f', 'a', 'l', 's', 'e']
  | .num n => some (intChars n)
  | .str s => some s
  | .arr _ => some []
  | .obj _ => some ['[', 'o', 'b', 'j', 'e', 'c', 't', ' ', 'O', 'b', 'j', 'e', 'c', 't', ']']

/-- `x?.y?.toString()` for `x.y` already looked up. -/
def optToStr (x : Option Json) : Option Str :=
  x.bind Json.toStr

/-! ### `JSON.stringify` -/

/-- One character of string content, JSON-escaped.  (`"` and `\` are escaped;
    like the source's payloads, control characters are left literal.) -/
def escChar (c : Char) : Str :=
  if c = '"' ∨ c = '\\' then ['\\', c] else [c]

/-- A rendered JSON string literal: quote, escaped content, quote. -/
def strLit (s : Str) : Str :=
  '"' :: (s.flatMap escChar ++ ['"'])

mutual

/-- `JSON.stringify`, as characters. -/
def Json.stringify : Json → Str
  | .null => 'n' :: ['u', 'l', 'l']
  | .bool true => 't' :: ['r', 'u', 'e']
  | .bool false => 'f' :: ['a', 'l', 's', 'e']
  | .num n => intChars n
  | .str s => strLit s
  | .arr elems => '[' :: (Json.stringifyElems elems ++ [']'])
  | .obj fields => '{' :: (Json.stringifyFields fields ++ ['}'])

/-- Comma-separated renderings of array elements. -/
def Json.stringifyElems : List Json → Str
  | [] => []
  | [e] => e.stringify
  | e :: rest => e.stringify ++ ',' :: Json.stringifyElems rest

/-- Comma-separated renderings of object members. -/
def Json.stringifyFields : List (Str × Json) → Str
  | [] => []
  | [(k, v)] => strLit k ++ ':' :: v.stringify
  | (k, v) :: rest => strLit k ++ ':' :: v.stringify ++ ',' :: Json.stringifyFields rest

end

/-! ### `JSON.parse` -/

/-- `headIs c cs`: `cs` begins with the character `c`. -/
def headIs (c : Char) : Str → Bool
  | [] => false
  | x :: _ => x = c

/-- Consume an expected literal character sequence. -/
def dropLit : Str → Str → Option Str
  | [], r => some r
  | _ :: _, [] => none
  | c :: cs, x :: xs => if x = c then dropLit cs xs else none

/-- Parse the contents of a string literal after the opening quote. -/
def parseStrBody : Str → Option (Str × Str)
  | [] => none
  | c :: rest =>
      if c = '"' then some ([], rest)
      else if c = '\\' then
        match rest with
        | [] => none
        | e :: rest2 =>
            if e = '"' ∨ e = '\\' then (parseStrBody rest2).map (fun p => (e :: p.1, p.2))
            else none
      else (parseStrBody rest).map (fun p => (c :: p.1, p.2))

/-- Parse a JSON integer (optional minus sign, digits). -/
def parseJInt (cs : Str) : Option (Int × Str) :=
  match cs with
  | [] => none
  | c :: r =>
      if c = '-' then
        let ds := grabDigits r
        if ds.1.isEmpty then none else some (-(digitsNat ds.1 : Int), ds.2)
      else
        let ds := grabDigits (c :: r)
        if ds.1.isEmpty then none else some ((digitsNat ds.1 : Int), ds.2)

mutual

/-- Recursive-descent JSON parser (fuel-indexed; no whitespace handling, as
    `JSON.stringify` output has none). -/
def parseJVal : Nat → Str → Option (Json × Str)
  | 0, _ => none
  | fuel + 1, cs =>
      match cs with
      | [] => none
      | c :: r =>
          if c = 'n' then (dropLit ['u', 'l', 'l'] r).map (fun r2 => (.null, r2))
          else if c = 't' then (dropLit ['r', 'u', 'e'] r).map (fun r2 => (.bool true, r2))
          else if c = 'f' then (dropLit ['a', 'l', 's', 'e'] r).map (fun r2 => (.bool false, r2))
          else if c = '"' then (parseStrBody r).map (fun p => (.str p.1, p.2))
          else if c = '[' then
            if headIs ']' r then some (.arr [], r.tail)
            else (parseJElems fuel r).map (fun p => (.arr p.1, p.2))
          else if c = '{' then
            if headIs '}' r then some (.obj [], r.tail)
            else (parseJFields fuel r).map (fun p => (.obj p.1, p.2))
          else (parseJInt (c :: r)).map (fun p => (.num p.1, p.2))

/-- One-or-more comma-separated elements, consuming the closing `]`. -/
def parseJElems : Nat → Str → Option (List Json × Str)
  | 0, _ => none
  | fuel + 1, cs =>
      match parseJVal fuel cs with
      | none => none
      | some (v, r) =>
          match r with
          | [] => none
          | c2 :: r2 =>
              if c2 = ',' then (parseJElems fuel r2).map (fun p => (v :: p.1, p.2))
              else if c2 = ']' then some ([v], r2)
              else none

/-- One-or-more comma-separated members, consuming the closing `}`. -/
def parseJFields : Nat → Str → Option (List (Str × Json) × Str)
  | 0, _ => none
  | fuel + 1, cs =>
      match cs with
      | [] => none
      | c :: r =>
          if c = '"' then
            match parseStrBody r with
            | none => none
            | some (k, r1) =>
                match r1 with
                | [] => none
                | c1 :: r2 =>
                    if c1 = ':' then
                      match parseJVal fuel r2 with
                      | none => none
                      | some (v, r3) =>
                          match r3 with
                          | [] => none
                          | c3 :: r4 =>
                              if c3 = ',' then
                                (parseJFields fuel r4).map (fun p => ((k, v) :: p.1, p.2))
                              else if c3 = '}' then some ([(k, v)], r4)
                              else none
                    else none
          else none

end

/-- `JSON.parse`: the whole string must be consumed. -/
def jsonParse (cs : Str) : Option Json :=
  match parseJVal (cs.length + 1) cs with
  | some (j, []) => some j
  | _ => none

/-! ### The JSON codec round trip -/

mutual

/-- Fuel needed by `parseJVal` to parse a rendered value. -/
def jNeed : Json → Nat
  | .arr es => eNeed es + 1
  | .obj fs => fNeed fs + 1
  | _ => 1

def eNeed : List Json → Nat
  | [] => 0
  | e :: es => jNeed e + eNeed es + 1

def fNeed : List (Str × Json) → Nat
  | [] => 0
  | (_, v) :: fs => jNeed v + fNeed fs + 1

end

theorem jNeed_pos (j : Json) : 1 ≤ jNeed j := by
  cases j <;> simp [jNeed]

theorem dropLit_self (lit r : Str) : dropLit lit (lit ++ r) = some r := by
  induction lit with
  | nil => rfl
  | cons c cs ih => simp [dropLit, ih]

theorem parseStrBody_quote (rest : Str) : parseStrBody ('"' :: rest) = some ([], rest) := by
  conv_lhs => rw [parseStrBody.eq_def]
  simp

theorem parseStrBody_esc (e : Char) (rest : Str) (h : e = '"' ∨ e = '\\') :
    parseStrBody ('\\' :: e :: rest)
      = (parseStrBody rest).map (fun p => (e :: p.1, p.2)) := by
  conv_lhs => rw [parseStrBody.eq_def]
  simp [h]

theorem parseStrBody_plain (c : Char) (rest : Str) (h1 : c ≠ '"') (h2 : c ≠ '\\') :
    parseStrBody (c :: rest) = (parseStrBody rest).map (fun p => (c :: p.1, p.2)) := by
  conv_lhs => rw [parseStrBody.eq_def]
  simp [h1, h2]

theorem parseStrBody_escape (s : Str) (rest : Str) :
    parseStrBody (s.flatMap escChar ++ '"' :: rest) = some (s, rest) := by
  induction s with
  | nil => simpa using parseStrBody_quote rest
  | cons c t ih =>
      by_cases hc : c = '"' ∨ c = '\\'
      · have he : escChar c = ['\\', c] := by
          unfold escChar
          rw [if_pos hc]
        simp only [List.flatMap_cons, he, List.cons_append, List.append_assoc,
          List.nil_append]
        rw [parseStrBody_esc c _ hc, ih]
        rfl
      · push_neg at hc
        have he : escChar c = [c] := by
          unfold escChar
          rw [if_neg (not_or.mpr hc)]
        simp only [List.flatMap_cons, he, List.cons_append, List.append_assoc,
          List.nil_append]
        rw [parseStrBody_plain c _ hc.1 hc.2, ih]
        rfl

theorem digit_ne_delims {c : Char} (h : c.isDigit = true) :
    c ≠ 'n' ∧ c ≠ 't' ∧ c ≠ 'f' ∧ c ≠ '"' ∧ c ≠ '[' ∧ c ≠ '{' ∧ c ≠ ']' ∧ c ≠ '}'
      ∧ c ≠ ',' ∧ c ≠ ':' ∧ c ≠ '-' := by
  simp only [Char.isDigit, Bool.and_eq_true, decide_eq_true_eq] at h
  have h1 : ('0' : Char).toNat ≤ c.toNat := h.1
  have h2 : c.toNat ≤ ('9' : Char).toNat := h.2
  refine ⟨?_, ?_, ?_, ?_, ?_, ?_, ?_, ?_, ?_, ?_, ?_⟩ <;>
    (intro hc; subst hc; revert h1 h2; decide)

/-- The head character of a rendered JSON value is a value starter, never a
    delimiter. -/
theorem stringify_head (j : Json) :
    ∃ c t, Json.stringify j = c :: t ∧ c ≠ ']' ∧ c ≠ '}' := by
  cases j with
  | null => exact ⟨'n', _, rfl, by decide, by decide⟩
  | bool b => cases b with
      | true => exact ⟨'t', _, rfl, by decide, by decide⟩
      | false => exact ⟨'f', _, rfl, by decide, by decide⟩
  | str s => exact ⟨'"', _, rfl, by decide, by decide⟩
  | arr es => exact ⟨'[', _, rfl, by decide, by decide⟩
  | obj fs => exact ⟨'{', _, rfl, by decide, by decide⟩
  | num n =>
      by_cases hn : n < 0
      · refine ⟨'-', natChars n.natAbs, ?_, by decide, by decide⟩
        simp [Json.stringify, intChars, hn]
      · obtain ⟨c, t, hct⟩ : ∃ c t, natChars n.natAbs = c :: t := by
          cases h : natChars n.natAbs with
          | nil => exact absurd h (natChars_ne_nil _)
          | cons a b => exact ⟨a, b, rfl⟩
        have hcd : c.isDigit = true := natChars_all_digits _ c (hct ▸ List.mem_cons_self c t)
        have hd := digit_ne_delims hcd
        refine ⟨c, t, ?_, hd.2.2.2.2.2.2.1, hd.2.2.2.2.2.2.2.1⟩
        simp [Json.stringify, intChars, hn, hct]

theorem parseJInt_intChars (n : Int) (rest : Str) (hrest : digitStop rest = true) :
    parseJInt (intChars n ++ rest) = some (n, rest) := by
  have hgrab : grabDigits (natChars n.natAbs ++ rest) = (natChars n.natAbs, rest) :=
    grabDigits_run _ (natChars_all_digits _) _ hrest
  have hne : (natChars n.natAbs).isEmpty = false := by
    simpa [List.isEmpty_iff] using natChars_ne_nil n.natAbs
  by_cases hn : n < 0
  · have hform : intChars n ++ rest = '-' :: (natChars n.natAbs ++ rest) := by
      simp [intChars, hn]
    have hval : -((digitsNat (natChars n.natAbs) : Nat) : Int) = n := by
      rw [digitsNat_natChars]
      omega
    rw [hform]
    simp [parseJInt, hgrab, hne, hval]
  · obtain ⟨c, t, hct⟩ : ∃ c t, natChars n.natAbs = c :: t := by
      cases h : natChars n.natAbs with
      | nil => exact absurd h (natChars_ne_nil _)
      | cons a b => exact ⟨a, b, rfl⟩
    have hcd : c.isDigit = true := natChars_all_digits _ c (hct ▸ List.mem_cons_self c t)
    have hcm : ¬(c = '-') := (digit_ne_delims hcd).2.2.2.2.2.2.2.2.2.2
    have hform : intChars n ++ rest = c :: (t ++ rest) := by
      simp [intChars, hn, hct]
    have hgrab2 : grabDigits (c :: (t ++ rest)) = (natChars n.natAbs, rest) := by
      rw [show (c :: (t ++ rest) : Str) = natChars n.natAbs ++ rest by
        rw [hct, List.cons_append]]
      exact hgrab
    have hval : ((digitsNat (natChars n.natAbs) : Nat) : Int) = n := by
      rw [digitsNat_natChars]
      omega
    rw [hform]
    simp [parseJInt, hcm, hgrab2, hne, hval]

theorem headIs_stringify_ne (c : Char) (j : Json) (x : Str) (hc : c = ']' ∨ c = '}') :
    headIs c (Json.stringify j ++ x) = false := by
  obtain ⟨c0, t0, h0, hne1, hne2⟩ := stringify_head j
  rw [h0, List.cons_append]
  simp only [headIs, decide_eq_false_iff_not]
  rcases hc with rfl | rfl
  · exact hne1
  · exact hne2

mutual

theorem parseJVal_stringify : ∀ (j : Json) (fuel : Nat) (rest : Str),
    jNeed j ≤ fuel → digitStop rest = true →
    parseJVal fuel (Json.stringify j ++ rest) = some (j, rest)
  | j, 0, _, hfuel, _ => absurd (le_trans (jNeed_pos j) hfuel) (by omega)
  | .null, fuel + 1, rest, _, _ => by
      have hd := dropLit_self ['u', 'l', 'l'] rest
      simp only [List.cons_append, List.nil_append] at hd
      simp [Json.stringify, parseJVal, hd]
  | .bool true, fuel + 1, rest, _, _ => by
      have hd := dropLit_self ['r', 'u', 'e'] rest
      simp only [List.cons_append, List.nil_append] at hd
      simp [Json.stringify, parseJVal, hd]
  | .bool false, fuel + 1, rest, _, _ => by
      have hd := dropLit_self ['a', 'l', 's', 'e'] rest
      simp only [List.cons_append, List.nil_append] at hd
      simp [Json.stringify, parseJVal, hd]
  | .str s, fuel + 1, rest, _, _ => by
      have h1 := parseStrBody_escape s rest
      simp [Json.stringify, strLit, parseJVal, h1]
  | .num n, fuel + 1, rest, _, hrest => by
      obtain ⟨c, t, hct⟩ : ∃ c t, intChars n ++ rest = c :: t := by
        cases h : intChars n ++ rest with
        | nil =>
            rw [List.append_eq_nil] at h
            refine absurd h.1 ?_
            simp only [intChars]
            intro hx
            rw [List.append_eq_nil] at hx
            exact natChars_ne_nil _ hx.2
        | cons a b => exact ⟨a, b, rfl⟩
      have hc : c = '-' ∨ c.isDigit = true := by
        by_cases hn : n < 0
        · left
          have hform : intChars n ++ rest = '-' :: (natChars n.natAbs ++ rest) := by
            simp [intChars, hn]
          rw [hform] at hct
          injection hct with hx _
          exact hx.symm
        · right
          obtain ⟨c1, t1, h1⟩ : ∃ c1 t1, natChars n.natAbs = c1 :: t1 := by
            cases h : natChars n.natAbs with
            | nil => exact absurd h (natChars_ne_nil _)
            | cons a b => exact ⟨a, b, rfl⟩
          have hform : intChars n ++ rest = c1 :: (t1 ++ rest) := by
            simp [intChars, hn, h1]
          rw [hform] at hct
          injection hct with hx _
          rw [← hx]
          exact natChars_all_digits _ c1 (h1 ▸ List.mem_cons_self c1 t1)
      have hnot : c ≠ 'n' ∧ c ≠ 't' ∧ c ≠ 'f' ∧ c ≠ '"' ∧ c ≠ '[' ∧ c ≠ '{' := by
        rcases hc with rfl | hd
        · exact ⟨by decide, by decide, by decide, by decide, by decide, by decide⟩
        · have := digit_ne_delims hd
          exact ⟨this.1, this.2.1, this.2.2.1, this.2.2.2.1, this.2.2.2.2.1, this.2.2.2.2.2.1⟩
      have hints := parseJInt_intChars n rest hrest
      simp only [Json.stringify]
      rw [hct]
      simp only [parseJVal, if_neg hnot.1, if_neg hnot.2.1, if_neg hnot.2.2.1,
        if_neg hnot.2.2.2.1, if_neg hnot.2.2.2.2.1, if_neg hnot.2.2.2.2.2]
      rw [← hct, hints]
      rfl
  | .arr [], fuel + 1, rest, _, _ => by
      simp [Json.stringify, Json.stringifyElems, parseJVal, headIs]
  | .arr (e :: es), fuel + 1, rest, hfuel, _ => by
      have hfe : eNeed (e :: es) ≤ fuel := by
        simp only [jNeed] at hfuel
        omega
      have helems := parseJElems_stringify (e :: es) fuel rest (by simp) hfe
      have hX : ∃ X, Json.stringifyElems (e :: es) ++ ']' :: rest
          = Json.stringify e ++ X := by
        cases es with
        | nil => exact ⟨']' :: rest, by simp [Json.stringifyElems]⟩
        | cons e2 es2 =>
            exact ⟨',' :: (Json.stringifyElems (e2 :: es2) ++ ']' :: rest), by
              simp [Json.stringifyElems, List.append_assoc]⟩
      obtain ⟨X, hXe⟩ := hX
      have hhd : headIs ']' (Json.stringifyElems (e :: es) ++ ']' :: rest) = false := by
        rw [hXe]
        exact headIs_stringify_ne ']' e X (Or.inl rfl)
      simp only [Json.stringify, List.cons_append, List.append_assoc, List.singleton_append]
      simp only [parseJVal, if_neg (by decide : ¬('[' : Char) = 'n'),
        if_neg (by decide : ¬('[' : Char) = 't'), if_neg (by decide : ¬('[' : Char) = 'f'),
        if_neg (by decide : ¬('[' : Char) = '"')]
      simp [hhd, helems]
  | .obj [], fuel + 1, rest, _, _ => by
      simp [Json.stringify, Json.stringifyFields, parseJVal, headIs]
  | .obj (f :: fs), fuel + 1, rest, hfuel, _ => by
      have hff : fNeed (f :: fs) ≤ fuel := by
        simp only [jNeed] at hfuel
        omega
      have hfields := parseJFields_stringify (f :: fs) fuel rest (by simp) hff
      obtain ⟨k, v⟩ := f
      have hhd : headIs '}' (Json.stringifyFields ((k, v) :: fs) ++ '}' :: rest) = false := by
        cases fs <;> simp [Json.stringifyFields, strLit, headIs]
      simp only [Json.stringify, List.cons_append, List.append_assoc, List.singleton_append]
      simp only [parseJVal, if_neg (by decide : ¬('{' : Char) = 'n'),
        if_neg (by decide : ¬('{' : Char) = 't'), if_neg (by decide : ¬('{' : Char) = 'f'),
        if_neg (by decide : ¬('{' : Char) = '"'), if_neg (by decide : ¬('{' : Char) = '[')]
      simp [hhd, hfields]

theorem parseJElems_stringify : ∀ (es : List Json) (fuel : Nat) (rest : Str),
    es ≠ [] → eNeed es ≤ fuel →
    parseJElems fuel (Json.stringifyElems es ++ ']' :: rest) = some (es, rest)
  | [], _, _, h, _ => absurd rfl h
  | e :: es, 0, _, _, hfuel => by
      simp only [eNeed] at hfuel
      omega
  | [e], fuel + 1, rest, _, hfuel => by
      have hv := parseJVal_stringify e fuel (']' :: rest)
        (by simp only [eNeed, jNeed] at hfuel ⊢; omega) (by simp [digitStop])
      simp only [Json.stringifyElems]
      simp [parseJElems, hv]
  | e :: e2 :: es, fuel + 1, rest, _, hfuel => by
      have hv := parseJVal_stringify e fuel
        (',' :: (Json.stringifyElems (e2 :: es) ++ ']' :: rest))
        (by simp only [eNeed] at hfuel; omega) (by simp [digitStop])
      have hrec := parseJElems_stringify (e2 :: es) fuel rest (by simp)
        (by simp only [eNeed] at hfuel ⊢; omega)
      have hshape : Json.stringifyElems (e :: e2 :: es) ++ ']' :: rest
          = Json.stringify e ++ (',' :: (Json.stringifyElems (e2 :: es) ++ ']' :: rest)) := by
        simp [Json.stringifyElems, List.append_assoc]
      rw [hshape]
      simp [parseJElems, hv, hrec]

theorem parseJFields_stringify : ∀ (fs : List (Str × Json)) (fuel : Nat) (rest : Str),
    fs ≠ [] → fNeed fs ≤ fuel →
    parseJFields fuel (Json.stringifyFields fs ++ '}' :: rest) = some (fs, rest)
  | [], _, _, h, _ => absurd rfl h
  | f :: fs, 0, _, _, hfuel => by
      obtain ⟨k, v⟩ := f
      simp only [fNeed] at hfuel
      omega
  | [(k, v)], fuel + 1, rest, _, hfuel => by
      have hv := parseJVal_stringify v fuel ('}' :: rest)
        (by simp only [fNeed] at hfuel; omega) (by simp [digitStop])
      have hk := parseStrBody_escape k (':' :: (Json.stringify v ++ '}' :: rest))
      have hshape : Json.stringifyFields [(k, v)] ++ '}' :: rest
          = '"' :: (k.flatMap escChar ++ '"' :: (':' :: (Json.stringify v ++ '}' :: rest))) := by
        simp [Json.stringifyFields, strLit, List.append_assoc]
      rw [hshape]
      simp [parseJFields, hk, hv]
  | (k, v) :: f2 :: fs, fuel + 1, rest, _, hfuel => by
      have hv := parseJVal_stringify v fuel
        (',' :: (Json.stringifyFields (f2 :: fs) ++ '}' :: rest))
        (by simp only [fNeed] at hfuel; omega) (by simp [digitStop])
      have hrec := parseJFields_stringify (f2 :: fs) fuel rest (by simp)
        (by obtain ⟨k2, v2⟩ := f2; simp only [fNeed] at hfuel ⊢; omega)
      have hk := parseStrBody_escape k
        (':' :: (Json.stringify v ++ ',' :: (Json.stringifyFields (f2 :: fs) ++ '}' :: rest)))
      have hshape : Json.stringifyFields ((k, v) :: f2 :: fs) ++ '}' :: rest
          = '"' :: (k.flatMap escChar ++ '"' :: (':' :: (Json.stringify v
              ++ ',' :: (Json.stringifyFields (f2 :: fs) ++ '}' :: rest)))) := by
        simp [Json.stringifyFields, strLit, List.append_assoc]
      rw [hshape]
      simp [parseJFields, hk, hv, hrec]

end

mutual

theorem jNeed_le_length : ∀ j : Json, jNeed j ≤ (Json.stringify j).length
  | .null => by simp [jNeed, Json.stringify]
  | .bool true => by simp [jNeed, Json.stringify]
  | .bool false => by simp [jNeed, Json.stringify]
  | .num n => by
      have := natChars_ne_nil n.natAbs
      have hlen : 1 ≤ (natChars n.natAbs).length := List.length_pos.mpr this
      simp only [jNeed, Json.stringify, intChars, List.length_append]
      split
      · simp
      · simp; omega
  | .str s => by simp [jNeed, Json.stringify, strLit]
  | .arr es => by
      have := eNeed_le_length es
      simp only [jNeed, Json.stringify, List.length_cons, List.length_append]
      simp
      omega
  | .obj fs => by
      have := fNeed_le_length fs
      simp only [jNeed, Json.stringify, List.length_cons, List.length_append]
      simp
      omega

theorem eNeed_le_length : ∀ es : List Json, eNeed es ≤ (Json.stringifyElems es).length + 1
  | [] => by simp [eNeed, Json.stringifyElems]
  | [e] => by
      have := jNeed_le_length e
      simp only [eNeed, Json.stringifyElems]
      omega
  | e :: e2 :: es => by
      have h1 := jNeed_le_length e
      have h2 := eNeed_le_length (e2 :: es)
      simp only [eNeed, Json.stringifyElems, List.length_append, List.length_cons] at h2 ⊢
      omega

theorem fNeed_le_length : ∀ fs : List (Str × Json), fNeed fs ≤ (Json.stringifyFields fs).length + 1
  | [] => by simp [fNeed, Json.stringifyFields]
  | [(k, v)] => by
      have := jNeed_le_length v
      simp only [fNeed, Json.stringifyFields, List.length_append, List.length_cons]
      omega
  | (k, v) :: f2 :: fs => by
      have h1 := jNeed_le_length v
      have h2 := fNeed_le_length (f2 :: fs)
      simp only [fNeed, Json.stringifyFields, List.length_append, List.length_cons] at h2 ⊢
      omega

end

/-- The JSON codec round trip: `JSON.parse` inverts `JSON.stringify`. -/
theorem jsonParse_stringify (j : Json) : jsonParse (Json.stringify j) = some j := by
  have h := parseJVal_stringify j ((Json.stringify j).length + 1) []
    (by have := jNeed_le_length j; omega) rfl
  rw [List.append_nil] at h
  simp [jsonParse, h]

/-! ## More JS string operations (split / join / trim / case) -/

/-- Shorthand: the characters of a Lean string literal. -/
def st (s : String) : Str := s.data

/-- `needle.isPrefix`-style test: does `cs` start with `sep`? -/
def leadsWith : Str → Str → Bool
  | [], _ => true
  | _ :: _, [] => false
  | p :: ps, c :: cs => p = c && leadsWith ps cs

/-- Split at the first occurrence of `sep`: `some (before, after)`, or `none`
    when `sep` does not occur. -/
def breakOnSep (sep : Str) (cs : Str) : Option (Str × Str) :=
  match cs with
  | [] => none
  | c :: rest =>
      if leadsWith sep (c :: rest) then some ([], (c :: rest).drop sep.length)
      else (breakOnSep sep rest).map (fun p => (c :: p.1, p.2))

/-- JS `String.prototype.includes` for a non-empty separator. -/
def includesSep (sep cs : Str) : Bool := (breakOnSep sep cs).isSome

/-- JS `String.prototype.split` (fuelled; the fuel is always sufficient). -/
def splitOnSepF : Nat → Str → Str → List Str
  | 0, _, cs => [cs]
  | fuel + 1, sep, cs =>
      match breakOnSep sep cs with
      | none => [cs]
      | some (before, after) => before :: splitOnSepF fuel sep after

/-- JS `cs.split(sep)` for a non-empty `sep`. -/
def splitOnSep (sep cs : Str) : List Str := splitOnSepF (cs.length + 1) sep cs

/-- JS `Array.prototype.join`. -/
def joinSep (sep : Str) : List Str → Str
  | [] => []
  | [x] => x
  | x :: rest => x ++ sep ++ joinSep sep rest

/-- JS `String.prototype.trim`. -/
def trimStr (s : Str) : Str :=
  ((s.dropWhile Char.isWhitespace).reverse.dropWhile Char.isWhitespace).reverse

/-- JS `String.prototype.toLowerCase` (ASCII). -/
def lowerStr (s : Str) : Str := s.map Char.toLower

/-- `path.basename`: the segment after the last `/`. -/
def basename (s : Str) : Str := ((splitOnSep ['/'] s).getLast?).getD s

/-- Truthiness of `string | undefined`. -/
def optStrTruthy (s : Option Str) : Bool :=
  match s with
  | some v => strTruthy v
  | none => false

/-! ## The canonical model (`src/models/CanonicalProduct.ts`)

`meta` fields are JS values (`Json`), since the repository stores arbitrary
restored metadata in them; `canonicalId` is likewise a JS value (the code can
restore a non-string `_canonicalId` from WooCommerce `meta_data`). -/

structure CanonicalImage where
  id : Option Json
  src : Str
  alt : Option Str
  position : Option Int
deriving DecidableEq, Repr

structure CanonicalAttribute where
  name : Str
  value : Str
deriving DecidableEq, Repr

structure CanonicalProductOption where
  name : Str
  values : List Str
deriving DecidableEq, Repr

structure CanonicalVariant where
  canonicalId : Json
  title : Str
  price : JsNum
  compareAtPrice : Option JsNum
  attributes : Option (List CanonicalAttribute)
  sku : Str
  inventory : Option Int
  manageStock : Option Bool
  taxable : Option Bool
  image : Option CanonicalImage
  requiresShipping : Option Bool
  meta : Json
deriving DecidableEq, Repr

structure CanonicalProduct where
  id : Str
  title : Str
  description : Str
  images : List CanonicalImage
  options : Option (List CanonicalProductOption)
  productType : Option Str
  status : Option Str
  tags : Option (List Str)
  variants : List CanonicalVariant
  meta : Json
deriving DecidableEq, Repr

/-! ## WooCommerce platform model (`src/adapters/types.ts`) -/

structure WooImage where
  id : Int
  src : Str
  name : Str
  alt : Str
deriving DecidableEq, Repr

structure WooCategory where
  id : Int
  name : Str
  slug : Str
deriving DecidableEq, Repr

structure WooTag where
  id : Int
  name : Str
  slug : Str
deriving DecidableEq, Repr

structure WooAttributeDef where
  name : Str
  variation : Bool
  visible : Bool
  options : List Str
deriving DecidableEq, Repr

structure WooVarAttribute where
  name : Str
  option : Str
deriving DecidableEq, Repr

structure WooVariant where
  id : Int
  sku : Str
  regular_price : Str
  sale_price : Str
  manage_stock : Bool
  stock_quantity : Option Int
  stock_status : Option Str
  attributes : List WooVarAttribute
  image : Option WooImage
  meta_data : Option (List (Str × Json))
deriving DecidableEq, Repr

/-- The fields shared by every WooCommerce product shape (`WooBaseProduct`). -/
structure WooBase where
  id : Int
  name : Str
  description : Str
  short_description : Str
  images : List WooImage
  status : Str
  categories : Option (List WooCategory)
  tags : Option (List WooTag)
  sku : Str
  virtual : Option Bool
  shipping_required : Option Bool
  tax_status : Option Str
  weight : Option Str
  attributes : Option (List WooAttributeDef)
  stock_status : Option Str
  meta_data : Option (List (Str × Json))
deriving DecidableEq, Repr

/-- The discriminated union `WooProduct` (`type` is the constructor;
    `variableW` stands for the wire tag `"variable"`, a Lean keyword). -/
inductive WooProduct where
  | simple (base : WooBase) (regular_price : Str) (sale_price : Str)
      (stock_quantity : Option Int)
  | variableW (base : WooBase) (variations : List WooVariant)
  | grouped (base : WooBase)
  | external (base : WooBase)
deriving DecidableEq, Repr

/-- The base-product fields of any `WooProduct`. -/
def WooProduct.base : WooProduct → WooBase
  | .simple b _ _ _ => b
  | .variableW b _ => b
  | .grouped b => b
  | .external b => b

/-- The wire value of the `type` discriminator. -/
def WooProduct.typeStr : WooProduct → Str
  | .simple .. => st "simple"
  | .variableW .. => st "variable"
  | .grouped _ => st "grouped"
  | .external _ => st "external"

/-! ## Shopify platform model (`src/adapters/types.ts`) -/

structure ShopifyImage where
  id : Option Int
  src : Str
  alt : Option Str
  position : Option Int
deriving DecidableEq, Repr

structure ShopifyOption where
  name : Str
  values : List Str
deriving DecidableEq, Repr

structure ShopifyVariant where
  id : Option Str
  title : Str
  price : Str
  compare_at_price : Option Str
  sku : Str
  inventory_quantity : Int
  taxable : Option Bool
  requires_shipping : Option Bool
  image : Option ShopifyImage
  inventory_management : Option Str
  inventory_policy : Option Str
  option1 : Option Str
  option2 : Option Str
  option3 : Option Str
deriving DecidableEq, Repr

structure ShopifyProduct where
  id : Str
  title : Str
  body_html : Str
  variants : List ShopifyVariant
  images : List ShopifyImage
  options : Option (List ShopifyOption)
  status : Option Str
  tags : Option Str
  product_type : Option Str
deriving DecidableEq, Repr

/-! ## eBay platform model (`src/adapters/types.ts`)

The one-field wrappers `availability.shipToLocationAvailability.quantity` and
`pricingSummary.price` are flattened to `quantity` / `price`. -/

structure EbayProductInfo where
  title : Str
  description : Str
  imageUrls : List Str
deriving DecidableEq, Repr

structure EbayInventoryItem where
  sku : Str
  condition : Str
  product : EbayProductInfo
  quantity : Option Int
deriving DecidableEq, Repr

structure EbayPrice where
  value : Str
  currency : Str
deriving DecidableEq, Repr

structure EbayOfferDetails where
  sku : Str
  price : EbayPrice
  quantity : Option Int
deriving DecidableEq, Repr

structure EbayInventoryItemGroup where
  inventoryItemGroupKey : Str
  title : Str
  description : Str
  imageUrls : List Str
  variantSKUs : List Str
  offers : Option (List EbayOfferDetails)
deriving DecidableEq, Repr

/-- `EbayProduct`: the adapter discriminates by the presence of
    `inventoryItemGroupKey` (here: the constructor). -/
inductive EbayProduct where
  | item (it : EbayInventoryItem)
  | group (g : EbayInventoryItemGroup)
deriving DecidableEq, Repr

/-! ## The WooCommerce adapter (`src/adapters/WooAdapter.ts`) -/

/-- `record.meta_data?.find(m => m.key === key)?.value`. -/
def findMeta (md : Option (List (Str × Json))) (key : Str) : Option Json :=
  md.bind (fun entries => (entries.find? (fun e => e.1 = key)).map Prod.snd)

/-- `meta?.k1?.k2` on a canonical `meta` value. -/
def metaGet2 (meta : Json) (k1 k2 : Str) : Option Json :=
  (meta.get k1).bind (fun sub => sub.get k2)

/-- The TypeScript `as number` cast on `meta?.woo?.id` when building platform
    payloads.  A non-numeric (or absent) value is a type-level lie in the
    source; it defaults here to `0`, which no theorem observes (every reachable
    payload stores a number the adapter itself wrote). -/
def jsonToNumCast (j : Option Json) : Int :=
  match j with
  | some (.num n) => n
  | _ => 0

/-- The analogous string cast (for `meta?.woo?.parentSku`). -/
def jsonToStrCast (j : Option Json) : Str :=
  match j with
  | some (.str s) => s
  | _ => []

/-- A WooCommerce image passed into the canonical model
    (`{id: img.id, src: img.src, alt: img.alt || ''}`). -/
def wooImageToCanonical (img : WooImage) : CanonicalImage :=
  { id := some (.num img.id), src := img.src, alt := some (strOr img.alt []), position := none }

/-- The `meta.woo` entry written by `WooAdapter.fromPlatform` at product level
    (`parentSku` is present only for variable products; an `undefined`-valued
    key is observationally absent). -/
def wooProductMetaEntry (p : WooProduct) : Json :=
  match p with
  | .variableW base _ =>
      .obj [(st "id", .num base.id), (st "productType", .str (st "variable")),
        (st "parentSku", .str base.sku)]
  | _ =>
      .obj [(st "id", .num p.base.id), (st "productType", .str p.typeStr)]

/-- Stock inference shared by the simple product and each variation:
    `null` quantity plus `stock_status === 'instock'` becomes `1`. -/
def wooInferInventory (stock_quantity : Option Int) (stock_status : Option Str) : Option Int :=
  if stock_quantity = none ∧ stock_status = some (st "instock") then some 1
  else stock_quantity

/-- The canonical variant read from a WooCommerce variation. -/
def wooVariantFromPlatform (base : WooBase) (v : WooVariant) : CanonicalVariant :=
  let restoredVariantMeta := jsonOrElse (findMeta v.meta_data (st "_canonicalVariantMeta")) jEmpty
  { canonicalId := jsonOrElse (findMeta v.meta_data (st "_canonicalId")) (.str v.sku)
    title := joinSep (st " / ") (v.attributes.map (·.option))
    price := parseFloat (strOr v.sale_price v.regular_price)
    compareAtPrice := if strTruthy v.sale_price then some (parseFloat v.regular_price) else none
    attributes := none
    sku := v.sku
    inventory := wooInferInventory v.stock_quantity v.stock_status
    manageStock := some v.manage_stock
    taxable := some (base.tax_status = some (st "taxable"))
    image := v.image.map wooImageToCanonical
    requiresShipping := base.shipping_required
    meta := spreadWith restoredVariantMeta (st "woo") (.obj [(st "id", .num v.id)]) }

/-- The single canonical variant read from a WooCommerce simple product. -/
def wooSimpleVariant (base : WooBase) (regular_price sale_price : Str)
    (stock_quantity : Option Int) : CanonicalVariant :=
  { canonicalId := .str (strOr base.sku (st "woo-" ++ intChars base.id))
    title := st "Default Title"
    price := parseFloat (strOr sale_price regular_price)
    compareAtPrice := if strTruthy sale_price then some (parseFloat regular_price) else none
    attributes := none
    sku := base.sku
    inventory := wooInferInventory stock_quantity base.stock_status
    manageStock := none
    taxable := some (base.tax_status = some (st "taxable"))
    image := none
    requiresShipping := base.shipping_required
    meta := .obj [(st "woo", .obj [(st "id", .num base.id)])] }

/-- `WooAdapter.fromPlatform`.  `none` is the SKIP sentinel (the source's
    `null` return for grouped/external records, logged with a warning). -/
def wooFromPlatform (product : WooProduct) : Option CanonicalProduct :=
  match product with
  | .grouped _ => none
  | .external _ => none
  | p =>
      let base := p.base
      let restoredMeta := jsonOrElse (findMeta base.meta_data (st "_canonicalMeta")) jEmpty
      let description := strOr base.description []
      let shortDescription := strOr base.short_description []
      let fullDescription :=
        if strTruthy shortDescription then description ++ st "\n" ++ shortDescription
        else description
      let variants :=
        match p with
        | .simple _ regular_price sale_price stock_quantity =>
            [wooSimpleVariant base regular_price sale_price stock_quantity]
        | .variableW _ variations => variations.map (wooVariantFromPlatform base)
        | _ => []
      some
        { id := strOrElse (optToStr (metaGet2 restoredMeta (st "shopify") (st "id")))
            (intChars base.id)
          title := base.name
          description := fullDescription
          images := base.images.map wooImageToCanonical
          productType := (base.categories.bind List.head?).map (·.name)
          status := some base.status
          tags := base.tags.map (List.map (·.name))
          options := base.attributes.map (fun attrs =>
            (attrs.filter (·.variation)).map (fun a => ⟨a.name, a.options⟩))
          variants := variants
          meta := spreadWith restoredMeta (st "woo") (wooProductMetaEntry p) }

/-- The console warning `WooAdapter.fromPlatform` emits for a skipped record. -/
def wooSkipWarning (product : WooProduct) : Option Str :=
  match product with
  | .grouped base =>
      some (st "[WooAdapter] Skipping unsupported product type \"grouped\" for product ID: "
        ++ intChars base.id ++ st " (Name: \"" ++ base.name ++ st "\").")
  | .external base =>
      some (st "[WooAdapter] Skipping unsupported product type \"external\" for product ID: "
        ++ intChars base.id ++ st " (Name: \"" ++ base.name ++ st "\").")
  | _ => none

/-- The `baseProperties` object of `WooAdapter.toPlatform`. -/
def wooBaseProperties (product : CanonicalProduct) : WooBase :=
  let headReqShip := ((product.variants.head?).bind (·.requiresShipping)).getD true
  let headTaxable := ((product.variants.head?).bind (·.taxable)).getD true
  { id := jsonToNumCast (metaGet2 product.meta (st "woo") (st "id"))
    name := product.title
    description := product.description
    short_description := []
    images := product.images.map (fun img =>
      { id := jsonToNumCast img.id
        src := img.src
        name := basename img.src
        alt := strOrElse img.alt [] })
    status := if product.status = some (st "active") then st "publish" else st "draft"
    categories := some
      (match product.productType with
       | some pt => if strTruthy pt then [⟨0, pt, lowerStr pt⟩] else []
       | none => [])
    tags := some
      (match product.tags with
       | some ts => ts.map (fun t => ⟨0, t, lowerStr t⟩)
       | none => [])
    sku := []  -- `baseProperties` has no `sku`; each shape below sets it
    virtual := some (!headReqShip)
    shipping_required := some headReqShip
    tax_status := some (if headTaxable then st "taxable" else st "none")
    weight := some []
    attributes := none
    stock_status := none
    meta_data := some [(st "_canonicalMeta", product.meta)] }

/-- One WooCommerce variation written by `WooAdapter.toPlatform`. -/
def wooVariationToPlatform (v : CanonicalVariant) : WooVariant :=
  { id := jsonToNumCast (metaGet2 v.meta (st "woo") (st "id"))
    sku := v.sku
    regular_price := numChars (optNumOr v.compareAtPrice v.price)
    sale_price := if optNumTruthy v.compareAtPrice then numChars v.price else []
    manage_stock := v.manageStock.getD false
    stock_quantity := v.inventory
    stock_status := none
    attributes := (splitOnSep (st " / ") v.title).map (fun t => ⟨st "Option", trimStr t⟩)
    image := none
    meta_data := some [(st "_canonicalId", v.canonicalId),
      (st "_canonicalVariantMeta", v.meta)] }

/-- `WooAdapter.toPlatform`: a simple product for exactly one variant with no
    persisted `meta.woo.productType === "variable"` flag, else a variable
    product. -/
def wooToPlatform (product : CanonicalProduct) : WooProduct :=
  let mustBeVariable :=
    metaGet2 product.meta (st "woo") (st "productType") = some (.str (st "variable"))
  let base := wooBaseProperties product
  match product.variants with
  | [variant] =>
      if mustBeVariable then
        .variableW { base with sku := jsonToStrCast (metaGet2 product.meta (st "woo")
          (st "parentSku")) } (product.variants.map wooVariationToPlatform)
      else
        .simple { base with sku := variant.sku }
          (numChars (optNumOr variant.compareAtPrice variant.price))
          (if optNumTruthy variant.compareAtPrice then numChars variant.price else [])
          variant.inventory
  | _ =>
      .variableW { base with sku := jsonToStrCast (metaGet2 product.meta (st "woo")
        (st "parentSku")) } (product.variants.map wooVariationToPlatform)

/-! ## The Shopify adapter (`src/adapters/ShopifyAdapter.ts`)

`uuidv4()` is modelled by a counter: each call yields `uuid-<n>` and advances
the counter, so distinct calls yield distinct identifiers. -/

/-- One fresh identifier from the `uuidv4` supply. -/
def uuidv4 (n : Nat) : Str := st "uuid-" ++ natChars n

theorem uuidv4_injective {m n : Nat} (h : uuidv4 m = uuidv4 n) : m = n := by
  simp only [uuidv4, st, List.append_cancel_left_eq] at h
  exact natChars_injective h

/-- A Shopify image carried into the canonical model unchanged. -/
def shopifyImageToCanonical (img : ShopifyImage) : CanonicalImage :=
  { id := img.id.map .num, src := img.src, alt := img.alt, position := img.position }

/-- The positional `option1..option3` slots turned into attributes, matching
    names against the product's declared options (`"Option"` as fallback). -/
def shopifyVariantAttributes (options : Option (List ShopifyOption))
    (v : ShopifyVariant) : List CanonicalAttribute :=
  let slot (i : Nat) (o : Option Str) : List CanonicalAttribute :=
    match o with
    | some val =>
        if strTruthy val then
          [⟨strOrElse ((options.bind (fun l => l.get? (i - 1))).map (·.name)) (st "Option"), val⟩]
        else []
    | none => []
  slot 1 v.option1 ++ slot 2 v.option2 ++ slot 3 v.option3

/-- One canonical variant read from a Shopify variant, with the fresh
    identifier it is assigned. -/
def shopifyVariantFromPlatform (options : Option (List ShopifyOption)) (uid : Nat)
    (v : ShopifyVariant) : CanonicalVariant :=
  { canonicalId := .str (uuidv4 uid)
    title := v.title
    price := parseFloat v.price
    compareAtPrice :=
      match v.compare_at_price with
      | some s => if strTruthy s then some (parseFloat s) else none
      | none => none
    attributes := some (shopifyVariantAttributes options v)
    sku := v.sku
    inventory := some v.inventory_quantity
    manageStock := none
    taxable := v.taxable
    image := v.image.map shopifyImageToCanonical
    requiresShipping := v.requires_shipping
    meta := .obj [(st "shopify", .obj
      (match v.id with
       | some vid => [(st "id", Json.str vid)]
       | none => []))] }

/-- The variant list conversion, drawing one fresh identifier per variant in
    order. -/
def shopifyVariantsFromPlatform (options : Option (List ShopifyOption)) :
    Nat → List ShopifyVariant → List CanonicalVariant
  | _, [] => []
  | ctr, v :: rest =>
      shopifyVariantFromPlatform options ctr v
        :: shopifyVariantsFromPlatform options (ctr + 1) rest

/-- `ShopifyAdapter.fromPlatform`, with the fresh-id counter threaded through
    (a new `canonicalId` is generated for every variant on every call). -/
def shopifyFromPlatform (product : ShopifyProduct) (ctr : Nat) : CanonicalProduct × Nat :=
  let variants := shopifyVariantsFromPlatform product.options ctr product.variants
  ({ id := product.id
     title := product.title
     description := product.body_html
     images := product.images.map shopifyImageToCanonical
     productType := product.product_type
     status := product.status
     tags := product.tags.map (fun s => (splitOnSep (st ",") s).map trimStr)
     options := product.options.map (List.map (fun o => ⟨o.name, o.values⟩))
     variants := variants
     meta := .obj [(st "shopify", .obj [(st "id", .str product.id)])] },
   ctr + product.variants.length)

/-- The `as number | undefined` cast on a canonical image id. -/
def jsonToOptNumCast (j : Option Json) : Option Int :=
  match j with
  | some (.num n) => some n
  | _ => none

/-- `optionValues[i] || options?.[i]?.values[0] || null`. -/
def shopifySlotValue (optionValues : List Str)
    (options : Option (List CanonicalProductOption)) (i : Nat) : Option Str :=
  let a := optionValues.get? i
  let b := (options.bind (fun l => l.get? i)).bind (fun o => o.values.head?)
  if optStrTruthy a then a else if optStrTruthy b then b else none

/-- One Shopify variant written by `ShopifyAdapter.toPlatform`. -/
def shopifyVariantToPlatform (options : Option (List CanonicalProductOption))
    (v : CanonicalVariant) : ShopifyVariant :=
  let optionValues := (splitOnSep (st " / ") v.title).map trimStr
  { id := some (strOrElse (optToStr (metaGet2 v.meta (st "shopify") (st "id"))) [])
    title := v.title
    price := numChars v.price
    compare_at_price := v.compareAtPrice.map numChars
    sku := v.sku
    inventory_quantity := v.inventory.getD 0
    taxable := v.taxable
    requires_shipping := v.requiresShipping
    image := v.image.map (fun img =>
      { id := jsonToOptNumCast img.id, src := img.src, alt := img.alt,
        position := img.position })
    inventory_management :=
      if v.manageStock.getD false then some (st "shopify") else none
    inventory_policy := if v.manageStock.getD false then some (st "deny") else none
    option1 := shopifySlotValue optionValues options 0
    option2 := shopifySlotValue optionValues options 1
    option3 := shopifySlotValue optionValues options 2 }

/-- `ShopifyAdapter.toPlatform`. -/
def shopifyToPlatform (product : CanonicalProduct) : ShopifyProduct :=
  let variants := product.variants.map (shopifyVariantToPlatform product.options)
  { id := strOr (strOrElse (optToStr (metaGet2 product.meta (st "shopify") (st "id")))
      product.id) []
    title := product.title
    body_html := product.description
    images := product.images.map (fun img =>
      { id := jsonToOptNumCast img.id, src := img.src, alt := img.alt,
        position := img.position })
    options := product.options.map (List.map (fun o => ⟨o.name, o.values⟩))
    status := some (if product.status = some (st "publish") then st "active" else st "draft")
    tags := product.tags.map (joinSep (st ", "))
    product_type := product.productType
    variants := variants }

/-! ## The eBay adapter (`src/adapters/EbayAdapter.ts` in `src/convert.ts`) -/

/-- The separator embedding the JSON payload in the eBay SKU. -/
def META_SEPARATOR : Str := st "::meta="

theorem length_dropWhile_le (p : Char → Bool) (l : Str) :
    (l.dropWhile p).length ≤ l.length := by
  induction l with
  | nil => simp
  | cons a t ih =>
      rw [List.dropWhile_cons]
      split
      · exact le_trans ih (by simp)
      · simp

/-- `/\s+/g` replaced by `-` (for the fallback item-group key). -/
def replaceWsDash : Str → Str
  | [] => []
  | c :: rest =>
      if c.isWhitespace then '-' :: replaceWsDash (rest.dropWhile Char.isWhitespace)
      else c :: replaceWsDash rest
termination_by s => s.length
decreasing_by
  all_goals simp only [List.length_cons]
  · have := length_dropWhile_le Char.isWhitespace (by assumption)
    omega
  · omega

/-- The JSON payload `{canonicalId, title, meta}` encoded into an offer SKU. -/
def ebayMetaPayload (v : CanonicalVariant) : Json :=
  .obj [(st "canonicalId", v.canonicalId), (st "title", .str v.title), (st "meta", v.meta)]

/-- The encoded eBay SKU for one variant. -/
def ebayEncodeSku (v : CanonicalVariant) : Str :=
  v.sku ++ META_SEPARATOR ++ Json.stringify (ebayMetaPayload v)

/-- `EbayAdapter.toPlatform`: a single inventory item for one variant (plain
    SKU, no offer/price), an item group with encoded offer SKUs otherwise. -/
def ebayToPlatform (product : CanonicalProduct) : EbayProduct :=
  match product.variants with
  | [variant] =>
      .item
        { sku := variant.sku
          condition := st "NEW"
          product := ⟨product.title, product.description, product.images.map (·.src)⟩
          quantity := variant.inventory }
  | _ =>
      let offers : List EbayOfferDetails := product.variants.map (fun v =>
        { sku := ebayEncodeSku v
          price := ⟨numChars v.price, st "USD"⟩
          quantity := v.inventory })
      .group
        { inventoryItemGroupKey :=
            strOr (strOrElse (optToStr (metaGet2 product.meta (st "ebay") (st "id")))
              product.id) (replaceWsDash product.title)
          title := product.title
          description := product.description
          imageUrls := product.images.map (·.src)
          variantSKUs := offers.map (·.sku)
          offers := some offers }

/-- `EbayAdapter.parseSku`: split on the separator, `JSON.parse` the second
    part, fall back to `{}` when parsing fails or there is no separator. -/
def parseSkuFn (ebaySku : Str) : Str × Json :=
  match breakOnSep META_SEPARATOR ebaySku with
  | none => (ebaySku, jEmpty)
  | some (before, rest) =>
      let seg :=
        match breakOnSep META_SEPARATOR rest with
        | none => rest
        | some (x, _) => x
      match jsonParse seg with
      | some j => (before, j)
      | none => (before, jEmpty)

/-- The cast of a restored payload `title` into the canonical `title : string`
    slot (restored titles are strings in every payload the encoder writes). -/
def jsonAsStrCast (j : Json) : Str :=
  match j with
  | .str s => s
  | _ => []

/-- `EbayAdapter.fromSimpleItem`.  `none` models the `TypeError` JS raises when
    the decoded payload is `null` (accessing `restoredMeta.canonicalId`). -/
def ebayFromSimpleItem (item : EbayInventoryItem) : Option CanonicalProduct :=
  let parsed := parseSkuFn item.sku
  let originalSku := parsed.1
  let restoredMeta := parsed.2
  if restoredMeta = Json.null then none
  else
    some
      { id := item.sku
        title := item.product.title
        description := item.product.description
        images := item.product.imageUrls.map (fun url => ⟨none, url, none, none⟩)
        options := none
        productType := none
        status := none
        tags := none
        variants := [
          { canonicalId := jsonOrElse (restoredMeta.get (st "canonicalId")) (.str originalSku)
            title := jsonAsStrCast (jsonOrElse (restoredMeta.get (st "title"))
              (.str (st "Default")))
            price := some decZero
            compareAtPrice := none
            attributes := none
            sku := originalSku
            inventory := item.quantity
            manageStock := none
            taxable := none
            image := none
            requiresShipping := none
            meta := spreadWith (jsonOrElse (restoredMeta.get (st "meta")) jEmpty)
              (st "ebay") (.obj [(st "sku", .str item.sku)]) }]
        meta := spreadWith (jsonOrElse (restoredMeta.get (st "meta")) jEmpty)
          (st "ebay") (.obj [(st "id", .str item.sku)]) }

/-- One canonical variant decoded from an item-group offer (`none` models the
    `TypeError` on a `null` payload). -/
def ebayVariantFromOffer (offer : EbayOfferDetails) : Option CanonicalVariant :=
  let parsed := parseSkuFn offer.sku
  let originalSku := parsed.1
  let restoredMeta := parsed.2
  if restoredMeta = Json.null then none
  else
    some
      { canonicalId := jsonOrElse (restoredMeta.get (st "canonicalId")) (.str originalSku)
        title := jsonAsStrCast (jsonOrElse (restoredMeta.get (st "title"))
          (.str (st "Title Not Found")))
        price := parseFloat offer.price.value
        compareAtPrice := none
        attributes := none
        sku := originalSku
        inventory := offer.quantity
        manageStock := none
        taxable := none
        image := none
        requiresShipping := none
        meta := spreadWith (jsonOrElse (restoredMeta.get (st "meta")) jEmpty)
          (st "ebay") (.obj [(st "sku", .str offer.sku)]) }

/-- `EbayAdapter.fromItemGroup`. -/
def ebayFromItemGroup (group : EbayInventoryItemGroup) : Option CanonicalProduct := do
  let variants ← (group.offers.getD []).mapM ebayVariantFromOffer
  pure
    { id := group.inventoryItemGroupKey
      title := group.title
      description := group.description
      images := group.imageUrls.map (fun url => ⟨none, url, none, none⟩)
      options := none
      productType := none
      status := none
      tags := none
      variants := variants
      meta := .obj [(st "ebay", .obj [(st "id", .str group.inventoryItemGroupKey)])] }

/-- `EbayAdapter.fromPlatform`: dispatch on the presence of
    `inventoryItemGroupKey`. -/
def ebayFromPlatform : EbayProduct → Option CanonicalProduct
  | .item it => ebayFromSimpleItem it
  | .group g => ebayFromItemGroup g

/-! ## The sync reconciler (`ShopifyClient` in `src/clients/WooClient.ts`)

The network layer is external; modelled here are the pure decisions:
which products are created vs updated (`syncProducts`), which variants of an
update target are mutated or appended (`_updateSingleProduct`), and which
variants enter the price and inventory mutations (`updatePriceAndInventory`). -/

/-- One entry of the batched SKU lookup (`_findProductsBySkus`). -/
structure ExistingVariantData where
  productId : Str
  variantId : Str
  price : Str
  inventory : Int
  inventoryItemId : Str
deriving DecidableEq, Repr

/-- The `Map<string, ExistingVariantData>` of the batched lookup. -/
abbrev SkuMap := List (Str × ExistingVariantData)

/-- `existingVariantsMap.get(sku)` (`has` is `isSome`). -/
def skuLookup (m : SkuMap) (sku : Str) : Option ExistingVariantData :=
  (m.find? (fun e => e.1 = sku)).map Prod.snd

/-- An element of `variantsToUpdate`: the remote data plus the desired values. -/
structure VariantUpdate where
  existing : ExistingVariantData
  newPrice : Str
  newInventory : Int
deriving DecidableEq, Repr

/-- The decisions accumulated by `_updateSingleProduct`'s loop. -/
structure UpdatePlan where
  variantsToUpdate : List VariantUpdate
  variantsToCreate : List ShopifyVariant
  existingProductId : Option Str
  unchangedCount : Nat
deriving DecidableEq, Repr

/-- The loop body of `_updateSingleProduct` for one variant. -/
def updateStep (m : SkuMap) (plan : UpdatePlan) (variant : ShopifyVariant) : UpdatePlan :=
  match skuLookup m variant.sku with
  | some existing =>
      let plan :=
        if optStrTruthy plan.existingProductId then plan
        else { plan with existingProductId := some existing.productId }
      let priceHasChanged := numNe (jsNumber existing.price) (jsNumber variant.price)
      let inventoryHasChanged := existing.inventory ≠ variant.inventory_quantity
      if priceHasChanged ∨ inventoryHasChanged then
        { plan with variantsToUpdate :=
            plan.variantsToUpdate ++ [⟨existing, variant.price, variant.inventory_quantity⟩] }
      else { plan with unchangedCount := plan.unchangedCount + 1 }
  | none => { plan with variantsToCreate := plan.variantsToCreate ++ [variant] }

/-- The loop of `_updateSingleProduct` over the product's variants. -/
def updateScan (m : SkuMap) (variants : List ShopifyVariant) : UpdatePlan :=
  variants.foldl (updateStep m) ⟨[], [], none, 0⟩

/-- `_updateSingleProduct`: `none` models the thrown
    `Could not determine parent product ID` error. -/
def updateSingleProduct (product : ShopifyProduct) (m : SkuMap) : Option UpdatePlan :=
  let plan := updateScan m product.variants
  if ¬ optStrTruthy plan.existingProductId
      ∧ (plan.variantsToUpdate ≠ [] ∨ plan.variantsToCreate ≠ []) then none
  else some plan

/-- The REST price mutation of `updatePriceAndInventory`: only variants whose
    stored price string differs from the desired one. -/
def priceUpdates (updates : List VariantUpdate) : List VariantUpdate :=
  updates.filter (fun u => u.existing.price ≠ u.newPrice)

/-- The GraphQL inventory mutation: only variants whose inventory differs. -/
def inventoryUpdates (updates : List VariantUpdate) : List VariantUpdate :=
  updates.filter (fun u => u.existing.inventory ≠ u.newInventory)

/-- `syncProducts`' create/update routing decision. -/
structure SyncDecision where
  productsToCreate : List ShopifyProduct
  productsToUpdate : List ShopifyProduct
deriving DecidableEq, Repr

/-- `p.variants.some(v => existingVariantsMap.has(v.sku))`. -/
def hasExistingVariant (m : SkuMap) (p : ShopifyProduct) : Bool :=
  p.variants.any (fun v => (skuLookup m v.sku).isSome)

/-- The routing part of `syncProducts`: the whole product goes to the update
    path when any variant SKU resolves remotely, to the create path otherwise
    (nothing happens when there are no SKUs at all). -/
def syncRoute (products : List ShopifyProduct) (m : SkuMap) : SyncDecision :=
  let allSkus := products.flatMap (fun p => p.variants.map (·.sku))
  if allSkus.length = 0 then ⟨[], []⟩
  else
    { productsToCreate := products.filter (fun p => ¬ hasExistingVariant m p)
      productsToUpdate := products.filter (fun p => hasExistingVariant m p) }

/-! ## Round-trip lemmas for the WooCommerce adapter -/

theorem parseFloat_wf {s : Str} {d : Dec} (h : parseFloat s = some d) : d.wf := by
  unfold parseFloat at h
  cases hp : parseDecAux (s.dropWhile Char.isWhitespace) with
  | none => rw [hp] at h; simp at h
  | some pr =>
      obtain ⟨d1, r⟩ := pr
      rw [hp] at h
      simp at h
      rw [← h]
      exact parseDecAux_wf hp

theorem strTruthy_numChars (n : JsNum) : strTruthy (numChars n) = true := by
  have := numChars_ne_nil n
  simpa [strTruthy, List.isEmpty_iff]

theorem optNumOr_falsy {a : Option JsNum} (h : optNumTruthy a = false) (b : JsNum) :
    optNumOr a b = b := by
  cases a with
  | none => rfl
  | some v =>
      simp only [optNumTruthy] at h
      simp [optNumOr, h]

/-- The price written by `toPlatform` (`regular_price`/`sale_price` from
    `compareAtPrice`/`price`) reads back as the same `price`. -/
theorem priceEmitRoundTrip (c : Option JsNum) (p : JsNum) (hwf : ∀ d, p = some d → d.wf) :
    parseFloat (strOr (if optNumTruthy c then numChars p else [])
      (numChars (optNumOr c p))) = p := by
  cases hc : optNumTruthy c with
  | true =>
      rw [if_pos rfl, strOr_truthy _ _ (strTruthy_numChars p)]
      exact parseFloat_numChars hwf
  | false =>
      rw [if_neg (by simp), strOr_falsy _ _ (by simp [strTruthy]), optNumOr_falsy hc]
      exact parseFloat_numChars hwf

theorem wooInferInventory_none (q : Option Int) : wooInferInventory q none = q := by
  simp [wooInferInventory]

theorem jsonOrElse_cases (x : Option Json) (d : Json) :
    (jsonOrElse x d).truthy = true ∨ jsonOrElse x d = d := by
  cases x with
  | none => exact Or.inr rfl
  | some v =>
      by_cases hv : v.truthy = true
      · exact Or.inl (by simp [jsonOrElse, hv])
      · exact Or.inr (by simp [jsonOrElse, hv])

theorem jsonOrElse_self_of_truthy {y : Json} (h : y.truthy = true) (d : Json) :
    jsonOrElse (some y) d = y := by
  simp [jsonOrElse, h]

theorem setField_find_self (fields : List (Str × Json)) (k : Str) (v : Json) :
    (setField fields k v).find? (fun f => f.1 = k) = some (k, v) := by
  induction fields with
  | nil => simp [setField, List.find?]
  | cons f rest ih =>
      obtain ⟨k1, v1⟩ := f
      by_cases hk : k1 = k
      · subst hk
        simp [setField, List.find?]
      · simp [setField, hk, List.find?, ih]

/-- `{...m, k: v}.k` is `v`. -/
theorem spreadWith_get_self (m : Json) (k : Str) (v : Json) :
    (spreadWith m k v).get k = some v := by
  simp [spreadWith, Json.get, setField_find_self]

theorem setField_find_other (fields : List (Str × Json)) (k k2 : Str) (v : Json)
    (hne : k ≠ k2) :
    (setField fields k v).find? (fun f => f.1 = k2) = fields.find? (fun f => f.1 = k2) := by
  induction fields with
  | nil => simp [setField, List.find?, hne]
  | cons f rest ih =>
      obtain ⟨k1, v1⟩ := f
      by_cases hk : k1 = k
      · subst hk
        simp [setField, List.find?, hne]
      · by_cases hk2 : k1 = k2
        · subst hk2
          simp [setField, hk, List.find?]
        · simp [setField, hk, List.find?, hk2, ih]

/-- `{...m, k: v}.k2` for another key `k2` is `m.k2`. -/
theorem spreadWith_get_other (m : Json) (k k2 : Str) (v : Json) (hne : k ≠ k2) :
    (spreadWith m k v).get k2 = m.get k2 := by
  cases m <;> simp [spreadWith, Json.get, Json.fieldsOf, setField_find_other _ _ _ _ hne]

/-- The type flag restored from a product written by `toPlatform`'s
    variable path forces the variable representation again. -/
theorem wooToPlatform_of_variable (P : CanonicalProduct)
    (h : metaGet2 P.meta (st "woo") (st "productType") = some (.str (st "variable"))) :
    wooToPlatform P = .variableW
      { wooBaseProperties P with
        sku := jsonToStrCast (metaGet2 P.meta (st "woo") (st "parentSku")) }
      (P.variants.map wooVariationToPlatform) := by
  unfold wooToPlatform
  cases hv : P.variants with
  | nil => simp
  | cons v rest =>
      cases rest with
      | nil => simp [h, hv]
      | cons v2 rest2 => simp

/-- Fields preserved by one `toPlatform`/`fromPlatform` pass over a variation,
    for any canonical variant the adapter itself produces (canonical id
    restored or equal to the SKU, price canonical). -/
theorem wooVariantFieldsRoundTrip (b : WooBase) (v : CanonicalVariant)
    (hcid : v.canonicalId.truthy = true ∨ v.canonicalId = .str v.sku)
    (hwf : ∀ d, v.price = some d → d.wf) :
    (wooVariantFromPlatform b (wooVariationToPlatform v)).canonicalId = v.canonicalId
    ∧ (wooVariantFromPlatform b (wooVariationToPlatform v)).sku = v.sku
    ∧ (wooVariantFromPlatform b (wooVariationToPlatform v)).price = v.price
    ∧ (wooVariantFromPlatform b (wooVariationToPlatform v)).inventory = v.inventory := by
  refine ⟨?_, rfl, ?_, ?_⟩
  · show jsonOrElse (findMeta (wooVariationToPlatform v).meta_data (st "_canonicalId"))
      (.str (wooVariationToPlatform v).sku) = v.canonicalId
    have hfind : findMeta (wooVariationToPlatform v).meta_data (st "_canonicalId")
        = some v.canonicalId := by
      simp [wooVariationToPlatform, findMeta, List.find?]
    rw [hfind]
    rcases hcid with hcid | hcid
    · exact jsonOrElse_self_of_truthy hcid _
    · show jsonOrElse (some v.canonicalId) (.str v.sku) = v.canonicalId
      rw [hcid]
      by_cases ht : (Json.str v.sku).truthy = true
      · exact jsonOrElse_self_of_truthy ht _
      · simp [jsonOrElse, ht]
  · show parseFloat (strOr (wooVariationToPlatform v).sale_price
      (wooVariationToPlatform v).regular_price) = v.price
    exact priceEmitRoundTrip v.compareAtPrice v.price hwf
  · show wooInferInventory (wooVariationToPlatform v).stock_quantity
      (wooVariationToPlatform v).stock_status = v.inventory
    exact wooInferInventory_none v.inventory

/-- Variants produced by `wooVariantFromPlatform` satisfy the round-trip
    side conditions: the canonical id is truthy or equals the SKU, and the
    price is a canonical decimal. -/
theorem wooVariantFromPlatform_good (b : WooBase) (w : WooVariant) :
    ((wooVariantFromPlatform b w).canonicalId.truthy = true
      ∨ (wooVariantFromPlatform b w).canonicalId = .str (wooVariantFromPlatform b w).sku)
    ∧ (∀ d, (wooVariantFromPlatform b w).price = some d → d.wf) := by
  constructor
  · exact jsonOrElse_cases _ _
  · intro d hd
    exact parseFloat_wf hd

/-- One full `fromPlatform → toPlatform → fromPlatform` pass over any accepted
    WooCommerce record succeeds and preserves every variant's canonical id,
    SKU, price, and inventory. -/
theorem wooRoundTrip (R : WooProduct) (P1 : CanonicalProduct)
    (h : wooFromPlatform R = some P1) :
    ∃ P2, wooFromPlatform (wooToPlatform P1) = some P2
      ∧ P2.variants.map (·.canonicalId) = P1.variants.map (·.canonicalId)
      ∧ P2.variants.map (·.sku) = P1.variants.map (·.sku)
      ∧ P2.variants.map (·.price) = P1.variants.map (·.price)
      ∧ P2.variants.map (·.inventory) = P1.variants.map (·.inventory) := by
  have hid : (st "id" : Str) ≠ st "productType" := by decide
  have hidp : (st "id" : Str) ≠ st "parentSku" := by decide
  cases R with
  | grouped base => simp [wooFromPlatform] at h
  | external base => simp [wooFromPlatform] at h
  | simple base rp sp sq =>
      simp only [wooFromPlatform, Option.some.injEq] at h
      subst h
      have hmustS :
          metaGet2 (spreadWith (jsonOrElse (findMeta base.meta_data (st "_canonicalMeta"))
            jEmpty) (st "woo") (wooProductMetaEntry (.simple base rp sp sq)))
            (st "woo") (st "productType") = some (.str (st "simple")) := by
        simp only [metaGet2, spreadWith_get_self, Option.bind_some]
        simp [wooProductMetaEntry, WooProduct.base, WooProduct.typeStr, Json.get,
          List.find?, hid]
      have hidS :
          metaGet2 (spreadWith (jsonOrElse (findMeta base.meta_data (st "_canonicalMeta"))
            jEmpty) (st "woo") (wooProductMetaEntry (.simple base rp sp sq)))
            (st "woo") (st "id") = some (.num base.id) := by
        simp only [metaGet2, spreadWith_get_self, Option.bind_some]
        simp [wooProductMetaEntry, WooProduct.base, WooProduct.typeStr, Json.get, List.find?]
      have hMustNe : ¬ (metaGet2 (spreadWith (jsonOrElse (findMeta base.meta_data
          (st "_canonicalMeta")) jEmpty) (st "woo")
            (wooProductMetaEntry (.simple base rp sp sq)))
          (st "woo") (st "productType") = some (.str (st "variable"))) := by
        rw [hmustS]
        decide
      simp only [wooToPlatform, WooProduct.base]
      rw [if_neg hMustNe]
      simp only [wooFromPlatform, Option.some.injEq]
      refine ⟨_, rfl, ?_, ?_, ?_, ?_⟩ <;>
        simp [wooSimpleVariant, wooBaseProperties, WooProduct.base, jsonToNumCast, hidS,
          wooInferInventory_none, priceEmitRoundTrip _ _ (fun d hd => parseFloat_wf hd)]
  | variableW base variations =>
      simp only [wooFromPlatform, Option.some.injEq] at h
      subst h
      have hwoo :
          metaGet2 (spreadWith (jsonOrElse (findMeta base.meta_data (st "_canonicalMeta"))
            jEmpty) (st "woo") (wooProductMetaEntry (.variableW base variations)))
            (st "woo") (st "productType") = some (.str (st "variable")) := by
        simp only [metaGet2, spreadWith_get_self, Option.bind_some]
        simp [wooProductMetaEntry, Json.get, List.find?, hid]
      rw [wooToPlatform_of_variable _ hwoo]
      simp only [wooFromPlatform, Option.some.injEq]
      refine ⟨_, rfl, ?_, ?_, ?_, ?_⟩ <;>
        · simp only [List.map_map, WooProduct.base]
          apply List.map_congr_left
          intro w hw
          simp only [Function.comp_apply]
          obtain ⟨hcid, hwf⟩ := wooVariantFromPlatform_good base w
          first
          | exact (wooVariantFieldsRoundTrip _ _ hcid hwf).1
          | exact (wooVariantFieldsRoundTrip _ _ hcid hwf).2.1
          | exact (wooVariantFieldsRoundTrip _ _ hcid hwf).2.2.1
          | exact (wooVariantFieldsRoundTrip _ _ hcid hwf).2.2.2

/-! ## Round-trip lemmas for the Shopify adapter -/

/-- Every canonical variant the Shopify adapter produces has a canonical price
    and a non-null inventory. -/
theorem shopifyVariantsFromPlatform_mem (options : Option (List ShopifyOption)) :
    ∀ (ctr : Nat) (l : List ShopifyVariant),
      ∀ v ∈ shopifyVariantsFromPlatform options ctr l,
        (∀ d, v.price = some d → d.wf) ∧ v.inventory.isSome = true
  | _, [], v, hv => absurd hv (by simp [shopifyVariantsFromPlatform])
  | ctr, w :: rest, v, hv => by
      rw [shopifyVariantsFromPlatform, List.mem_cons] at hv
      rcases hv with rfl | hv
      · exact ⟨fun d hd => parseFloat_wf hd, rfl⟩
      · exact shopifyVariantsFromPlatform_mem options (ctr + 1) rest v hv

/-- Reading back what `toPlatform` wrote preserves each variant's SKU, price,
    and inventory (for variants with canonical prices and non-null inventory,
    as the adapter produces them). -/
theorem shopifyVariantsRoundTrip (opts : Option (List CanonicalProductOption))
    (opts2 : Option (List ShopifyOption)) :
    ∀ (l : List CanonicalVariant) (c2 : Nat),
      (∀ v ∈ l, (∀ d, v.price = some d → d.wf) ∧ v.inventory.isSome = true) →
      (shopifyVariantsFromPlatform opts2 c2
          (l.map (shopifyVariantToPlatform opts))).map (·.sku) = l.map (·.sku)
      ∧ (shopifyVariantsFromPlatform opts2 c2
          (l.map (shopifyVariantToPlatform opts))).map (·.price) = l.map (·.price)
      ∧ (shopifyVariantsFromPlatform opts2 c2
          (l.map (shopifyVariantToPlatform opts))).map (·.inventory) = l.map (·.inventory)
  | [], _, _ => by simp [shopifyVariantsFromPlatform]
  | v :: rest, c2, hgood => by
      obtain ⟨hwf, hinv⟩ := hgood v (by simp)
      have ih := shopifyVariantsRoundTrip opts opts2 rest (c2 + 1)
        (fun w hw => hgood w (by simp [hw]))
      obtain ⟨q, hq⟩ := Option.isSome_iff_exists.mp hinv
      refine ⟨?_, ?_, ?_⟩ <;>
        · simp only [List.map_cons, shopifyVariantsFromPlatform, List.map_cons]
          congr 1
          all_goals first
            | rfl
            | simp [ih.1, ih.2.1, ih.2.2]
            | simp [shopifyVariantFromPlatform, shopifyVariantToPlatform,
                parseFloat_numChars hwf, hq]

/-- One full Shopify `fromPlatform → toPlatform → fromPlatform` pass preserves
    every variant's SKU, price, and inventory (canonical ids are freshly
    regenerated). -/
theorem shopifyRoundTrip (R : ShopifyProduct) (ctr c2 : Nat) :
    ((shopifyFromPlatform (shopifyToPlatform (shopifyFromPlatform R ctr).1) c2).1.variants.map
        (·.sku) = (shopifyFromPlatform R ctr).1.variants.map (·.sku))
    ∧ ((shopifyFromPlatform (shopifyToPlatform (shopifyFromPlatform R ctr).1) c2).1.variants.map
        (·.price) = (shopifyFromPlatform R ctr).1.variants.map (·.price))
    ∧ ((shopifyFromPlatform (shopifyToPlatform (shopifyFromPlatform R ctr).1) c2).1.variants.map
        (·.inventory) = (shopifyFromPlatform R ctr).1.variants.map (·.inventory)) := by
  exact shopifyVariantsRoundTrip _ _ _ _
    (shopifyVariantsFromPlatform_mem R.options ctr R.variants)

/-! ## Reconciler loop invariants -/

/-- The decision gate for one matched variant entry. -/
def entryChanged (u : VariantUpdate) : Prop :=
  numNe (jsNumber u.existing.price) (jsNumber u.newPrice) = true
    ∨ u.existing.inventory ≠ u.newInventory

theorem updateStep_toUpdate_mono (m : SkuMap) (plan : UpdatePlan) (v : ShopifyVariant)
    (u : VariantUpdate) (hu : u ∈ plan.variantsToUpdate) :
    u ∈ (updateStep m plan v).variantsToUpdate := by
  cases h : skuLookup m v.sku with
  | none => simp only [updateStep, h]; simpa using hu
  | some e => simp only [updateStep, h]; split <;> split <;> simp [hu]

theorem updateStep_creates_mono (m : SkuMap) (plan : UpdatePlan) (v : ShopifyVariant)
    (u : ShopifyVariant) (hu : u ∈ plan.variantsToCreate) :
    u ∈ (updateStep m plan v).variantsToCreate := by
  cases h : skuLookup m v.sku with
  | none => simp only [updateStep, h]; simp [hu]
  | some e => simp only [updateStep, h]; split <;> split <;> simp [hu]

theorem updateStep_parent_mono (m : SkuMap) (plan : UpdatePlan) (v : ShopifyVariant)
    (hp : optStrTruthy plan.existingProductId = true) :
    optStrTruthy (updateStep m plan v).existingProductId = true := by
  cases h : skuLookup m v.sku with
  | none => simp only [updateStep, h]; simpa using hp
  | some e => simp only [updateStep, h]; split <;> simp [hp]

theorem updateStep_toUpdate_gate (m : SkuMap) (plan : UpdatePlan) (v : ShopifyVariant)
    (hplan : ∀ u ∈ plan.variantsToUpdate, entryChanged u) :
    ∀ u ∈ (updateStep m plan v).variantsToUpdate, entryChanged u := by
  cases h : skuLookup m v.sku with
  | none => simp only [updateStep, h]; simpa using hplan
  | some e =>
      intro u hu
      simp only [updateStep, h] at hu
      split at hu
      · rename_i hcond
        split at hu <;>
          · simp only [List.mem_append, List.mem_singleton] at hu
            rcases hu with hu | rfl
            · exact hplan u hu
            · exact hcond
      · split at hu <;> exact hplan u hu

theorem foldl_toUpdate_gate (m : SkuMap) :
    ∀ (l : List ShopifyVariant) (plan : UpdatePlan),
      (∀ u ∈ plan.variantsToUpdate, entryChanged u) →
      ∀ u ∈ (l.foldl (updateStep m) plan).variantsToUpdate, entryChanged u
  | [], _, hplan => hplan
  | v :: l, plan, hplan =>
      foldl_toUpdate_gate m l (updateStep m plan v) (updateStep_toUpdate_gate m plan v hplan)

theorem foldl_toUpdate_mono (m : SkuMap) :
    ∀ (l : List ShopifyVariant) (plan : UpdatePlan) (u : VariantUpdate),
      u ∈ plan.variantsToUpdate → u ∈ (l.foldl (updateStep m) plan).variantsToUpdate
  | [], _, _, hu => hu
  | v :: l, plan, u, hu =>
      foldl_toUpdate_mono m l (updateStep m plan v) u (updateStep_toUpdate_mono m plan v u hu)

theorem foldl_creates_mono (m : SkuMap) :
    ∀ (l : List ShopifyVariant) (plan : UpdatePlan) (u : ShopifyVariant),
      u ∈ plan.variantsToCreate → u ∈ (l.foldl (updateStep m) plan).variantsToCreate
  | [], _, _, hu => hu
  | v :: l, plan, u, hu =>
      foldl_creates_mono m l (updateStep m plan v) u (updateStep_creates_mono m plan v u hu)

theorem foldl_parent_mono (m : SkuMap) :
    ∀ (l : List ShopifyVariant) (plan : UpdatePlan),
      optStrTruthy plan.existingProductId = true →
      optStrTruthy (l.foldl (updateStep m) plan).existingProductId = true
  | [], _, hp => hp
  | v :: l, plan, hp =>
      foldl_parent_mono m l (updateStep m plan v) (updateStep_parent_mono m plan v hp)

theorem foldl_toUpdate_match (m : SkuMap) :
    ∀ (l : List ShopifyVariant) (plan : UpdatePlan) (v : ShopifyVariant), v ∈ l →
      ∀ e, skuLookup m v.sku = some e →
      entryChanged ⟨e, v.price, v.inventory_quantity⟩ →
      (⟨e, v.price, v.inventory_quantity⟩ : VariantUpdate)
        ∈ (l.foldl (updateStep m) plan).variantsToUpdate := by
  intro l
  induction l with
  | nil => intro plan v hv; simp at hv
  | cons w l ih =>
      intro plan v hv e he hch
      rw [List.foldl_cons]
      rcases List.mem_cons.mp hv with rfl | hv
      · apply foldl_toUpdate_mono
        have hcond : numNe (jsNumber e.price) (jsNumber v.price) = true
            ∨ e.inventory ≠ v.inventory_quantity := hch
        simp only [updateStep, he]
        rw [if_pos hcond]
        split <;> simp
      · exact ih (updateStep m plan w) v hv e he hch

theorem foldl_creates_match (m : SkuMap) :
    ∀ (l : List ShopifyVariant) (plan : UpdatePlan) (v : ShopifyVariant), v ∈ l →
      skuLookup m v.sku = none →
      v ∈ (l.foldl (updateStep m) plan).variantsToCreate := by
  intro l
  induction l with
  | nil => intro plan v hv; simp at hv
  | cons w l ih =>
      intro plan v hv he
      rw [List.foldl_cons]
      rcases List.mem_cons.mp hv with rfl | hv
      · apply foldl_creates_mono
        simp only [updateStep, he]
        simp
      · exact ih (updateStep m plan w) v hv he

theorem foldl_creates_sub (m : SkuMap) :
    ∀ (l : List ShopifyVariant) (plan : UpdatePlan) (v : ShopifyVariant),
      v ∈ (l.foldl (updateStep m) plan).variantsToCreate →
      v ∈ plan.variantsToCreate ∨ (v ∈ l ∧ skuLookup m v.sku = none) := by
  intro l
  induction l with
  | nil => intro plan v hv; exact Or.inl hv
  | cons w l ih =>
      intro plan v hv
      rw [List.foldl_cons] at hv
      rcases ih (updateStep m plan w) v hv with hstep | ⟨hl, hn⟩
      · cases hw : skuLookup m w.sku with
        | none =>
            simp only [updateStep, hw] at hstep
            simp only [List.mem_append, List.mem_singleton] at hstep
            rcases hstep with h | rfl
            · exact Or.inl h
            · exact Or.inr ⟨List.mem_cons_self _ _, hw⟩
        | some e =>
            simp only [updateStep, hw] at hstep
            split at hstep <;> split at hstep <;> exact Or.inl hstep
      · exact Or.inr ⟨List.mem_cons_of_mem _ hl, hn⟩

theorem foldl_parent_set (m : SkuMap) :
    ∀ (l : List ShopifyVariant) (plan : UpdatePlan) (v : ShopifyVariant), v ∈ l →
      ∀ e, skuLookup m v.sku = some e → strTruthy e.productId = true →
      optStrTruthy (l.foldl (updateStep m) plan).existingProductId = true := by
  intro l
  induction l with
  | nil => intro plan v hv; simp at hv
  | cons w l ih =>
      intro plan v hv e he ht
      rw [List.foldl_cons]
      rcases List.mem_cons.mp hv with rfl | hv
      · apply foldl_parent_mono
        simp only [updateStep, he]
        by_cases hp : optStrTruthy plan.existingProductId = true
        · split <;> simp [hp]
        · simp only [Bool.not_eq_true] at hp
          simp only [optStrTruthy] at hp
          split <;> simp [optStrTruthy, hp, ht]
      · exact ih (updateStep m plan w) v hv e he ht

/-- A successful lookup's data sits in the map. -/
theorem skuLookup_mem {m : SkuMap} {s : Str} {e : ExistingVariantData}
    (h : skuLookup m s = some e) : ∃ k, (k, e) ∈ m := by
  rw [skuLookup] at h
  cases hf : m.find? (fun x => x.1 = s) with
  | none => rw [hf] at h; simp at h
  | some pr =>
      rw [hf] at h
      simp at h
      exact ⟨pr.1, by rw [← h]; exact List.mem_of_find?_eq_some hf⟩

/-! ## Separator-splitting lemmas for the eBay SKU codec -/

theorem leadsWith_append_self : ∀ (sep rest : Str), leadsWith sep (sep ++ rest) = true
  | [], _ => rfl
  | p :: ps, rest => by simp [leadsWith, leadsWith_append_self ps rest]

theorem leadsWith_prefix_le : ∀ {x y : Str} (z : Str), leadsWith x (y ++ z) = true →
    x.length ≤ y.length → leadsWith x y = true
  | [], _, _, _, _ => rfl
  | p :: ps, [], z, h, hlen => by simp at hlen
  | p :: ps, c :: cs, z, h, hlen => by
      simp only [List.cons_append, leadsWith, Bool.and_eq_true, decide_eq_true_eq] at h ⊢
      exact ⟨h.1, leadsWith_prefix_le z h.2 (by simp only [List.length_cons] at hlen; omega)⟩

theorem leadsWith_append_mono : ∀ {x y : Str} (z : Str), leadsWith x y = true →
    leadsWith x (y ++ z) = true
  | [], _, _, _ => rfl
  | p :: ps, [], _, h => by simp [leadsWith] at h
  | p :: ps, c :: cs, z, h => by
      simp only [List.cons_append, leadsWith, Bool.and_eq_true, decide_eq_true_eq] at h ⊢
      exact ⟨h.1, leadsWith_append_mono z h.2⟩

theorem leadsWith_take : ∀ {y x : Str} (z : Str), leadsWith x (y ++ z) = true →
    y.length < x.length → leadsWith (x.drop y.length) z = true
  | [], x, z, h, _ => by simpa using h
  | c :: cs, [], z, h, hlen => by simp at hlen
  | c :: cs, p :: ps, z, h, hlen => by
      simp only [List.cons_append, leadsWith, Bool.and_eq_true, decide_eq_true_eq] at h
      simpa using leadsWith_take z h.2 (by simpa using Nat.lt_of_succ_lt_succ hlen)

theorem leadsWith_drop_eq : ∀ {sep cs : Str}, leadsWith sep cs = true →
    cs = sep ++ cs.drop sep.length
  | [], cs, _ => by simp
  | p :: ps, [], h => by simp [leadsWith] at h
  | p :: ps, c :: cs, h => by
      simp only [leadsWith, Bool.and_eq_true, decide_eq_true_eq] at h
      simpa [h.1] using leadsWith_drop_eq h.2

/-- No non-trivial suffix of `sep` is a prefix of `sep` (no border), so an
    occurrence of `sep` cannot straddle the boundary of an inserted `sep`. -/
def borderFree (sep : Str) : Bool :=
  (List.range sep.length).all (fun k => k = 0 || !(leadsWith (sep.drop k) sep))

theorem borderFree_spec {sep : Str} (h : borderFree sep = true) :
    ∀ k, 0 < k → k < sep.length → leadsWith (sep.drop k) sep = false := by
  intro k hk1 hk2
  rw [borderFree, List.all_eq_true] at h
  have hk := h k (List.mem_range.mpr hk2)
  simp only [Bool.or_eq_true, decide_eq_true_eq, Bool.not_eq_true'] at hk
  rcases hk with hk | hk
  · omega
  · exact hk

theorem leadsWith_includes {sep : Str} : ∀ {cs : Str}, leadsWith sep cs = true →
    cs ≠ [] → includesSep sep cs = true := by
  intro cs h hne
  cases cs with
  | nil => exact absurd rfl hne
  | cons c rest =>
      rw [includesSep, breakOnSep, if_pos h]
      rfl

theorem includes_cons {sep : Str} {c : Char} {a : Str}
    (h : includesSep sep (c :: a) = false) : includesSep sep a = false := by
  rw [includesSep, breakOnSep] at h
  split at h
  · simp at h
  · rw [includesSep]
    cases hx : breakOnSep sep a with
    | none => rfl
    | some q => rw [hx] at h; simp at h

theorem breakOnSep_self (sep b : Str) (hne : sep ≠ []) :
    breakOnSep sep (sep ++ b) = some ([], b) := by
  cases sep with
  | nil => exact absurd rfl hne
  | cons s ss =>
      have h1 : leadsWith (s :: ss) (s :: (ss ++ b)) = true := leadsWith_append_self (s :: ss) b
      show breakOnSep (s :: ss) (s :: (ss ++ b)) = some ([], b)
      rw [breakOnSep, if_pos h1]
      simp only [List.length_cons, List.drop_succ_cons]
      rw [List.drop_left]

theorem breakOnSep_append (sep : Str) (hne : sep ≠ []) (hbf : borderFree sep = true) :
    ∀ (a b : Str), includesSep sep a = false →
      breakOnSep sep (a ++ (sep ++ b)) = some (a, b) := by
  intro a
  induction a with
  | nil =>
      intro b _
      simpa using breakOnSep_self sep b hne
  | cons c a' ih =>
      intro b ha
      have hL : leadsWith sep ((c :: a') ++ (sep ++ b)) = false := by
        by_contra hcon
        rw [Bool.not_eq_false] at hcon
        by_cases hlen : sep.length ≤ (c :: a').length
        · have h1 : leadsWith sep (c :: a') = true := leadsWith_prefix_le _ hcon hlen
          have h2 := leadsWith_includes h1 (by simp)
          rw [ha] at h2
          exact absurd h2 (by simp)
        · push_neg at hlen
          have h2 : leadsWith (sep.drop (c :: a').length) (sep ++ b) = true :=
            leadsWith_take _ hcon hlen
          have h3 : leadsWith (sep.drop (c :: a').length) sep = true := by
            apply leadsWith_prefix_le b h2
            simp only [List.length_drop]
            omega
          rw [borderFree_spec hbf (c :: a').length (by simp) hlen] at h3
          exact absurd h3 (by simp)
      show breakOnSep sep (c :: (a' ++ (sep ++ b))) = some (c :: a', b)
      rw [breakOnSep, if_neg (by simp only [List.cons_append] at hL; simp [hL]),
        ih b (includes_cons ha)]
      rfl

theorem breakOnSep_decomp (sep : Str) : ∀ (cs b a : Str),
    breakOnSep sep cs = some (b, a) →
    cs = b ++ (sep ++ a) ∧ includesSep sep b = false := by
  intro cs
  induction cs with
  | nil => intro b a h; simp [breakOnSep] at h
  | cons c rest ih =>
      intro b a h
      rw [breakOnSep] at h
      split at h
      · rename_i hl
        simp only [Option.some.injEq, Prod.mk.injEq] at h
        obtain ⟨hb, ha⟩ := h
        subst hb
        subst ha
        refine ⟨by simpa using leadsWith_drop_eq hl, ?_⟩
        rw [includesSep, breakOnSep]
        rfl
      · rename_i hl
        cases hbr : breakOnSep sep rest with
        | none => rw [hbr] at h; simp at h
        | some pr =>
            rw [hbr] at h
            simp only [Option.map_some', Option.some.injEq, Prod.mk.injEq] at h
            obtain ⟨hb, ha⟩ := h
            obtain ⟨hdec, hinc⟩ := ih pr.1 pr.2 (by rw [hbr])
            have hb' : b = c :: pr.1 := hb.symm
            have ha' : a = pr.2 := ha.symm
            subst hb'
            subst ha'
            constructor
            · rw [hdec]
              simp
            · have hcp : leadsWith sep (c :: pr.1) = false := by
                by_contra hx
                rw [Bool.not_eq_false] at hx
                have hmono := leadsWith_append_mono (sep ++ pr.2) hx
                rw [show (c :: pr.1) ++ (sep ++ pr.2) = c :: rest from by rw [hdec]; rfl]
                  at hmono
                exact absurd hmono (by simp [hl])
              rw [includesSep, breakOnSep, if_neg (by simp [hcp])]
              have hn : breakOnSep sep pr.1 = none := by
                cases h2 : breakOnSep sep pr.1 with
                | none => rfl
                | some q => rw [includesSep, h2] at hinc; simp at hinc
              rw [hn]
              rfl

/-! ## Round-trip lemmas for the eBay adapter -/

/-- Decoding the encoder's own SKU recovers the SKU and the payload, when
    neither contains the separator. -/
theorem parseSku_encode (v : CanonicalVariant)
    (h1 : includesSep META_SEPARATOR v.sku = false)
    (h2 : includesSep META_SEPARATOR (Json.stringify (ebayMetaPayload v)) = false) :
    parseSkuFn (ebayEncodeSku v) = (v.sku, ebayMetaPayload v) := by
  have hS : breakOnSep META_SEPARATOR (Json.stringify (ebayMetaPayload v)) = none := by
    cases hx : breakOnSep META_SEPARATOR (Json.stringify (ebayMetaPayload v)) with
    | none => rfl
    | some q => rw [includesSep, hx] at h2; simp at h2
  have hb : breakOnSep META_SEPARATOR (ebayEncodeSku v)
      = some (v.sku, Json.stringify (ebayMetaPayload v)) := by
    rw [ebayEncodeSku, List.append_assoc]
    exact breakOnSep_append META_SEPARATOR (by decide) (by decide) _ _ h1
  simp only [parseSkuFn, hb, hS, jsonParse_stringify]

/-- The offer `EbayAdapter.toPlatform` writes for one variant of a group. -/
def ebayOfferOf (v : CanonicalVariant) : EbayOfferDetails :=
  { sku := ebayEncodeSku v, price := ⟨numChars v.price, st "USD"⟩, quantity := v.inventory }

/-- What `ebayVariantFromOffer` computes on that offer once the payload has
    been recovered. -/
def ebayDecodedVariant (v : CanonicalVariant) : CanonicalVariant :=
  { canonicalId := jsonOrElse ((ebayMetaPayload v).get (st "canonicalId")) (.str v.sku)
    title := jsonAsStrCast (jsonOrElse ((ebayMetaPayload v).get (st "title"))
      (.str (st "Title Not Found")))
    price := parseFloat (numChars v.price)
    compareAtPrice := none
    attributes := none
    sku := v.sku
    inventory := v.inventory
    manageStock := none
    taxable := none
    image := none
    requiresShipping := none
    meta := spreadWith (jsonOrElse ((ebayMetaPayload v).get (st "meta")) jEmpty)
      (st "ebay") (.obj [(st "sku", .str (ebayEncodeSku v))]) }

theorem ebayVariantFromOffer_encode (v : CanonicalVariant)
    (h1 : includesSep META_SEPARATOR v.sku = false)
    (h2 : includesSep META_SEPARATOR (Json.stringify (ebayMetaPayload v)) = false) :
    ebayVariantFromOffer (ebayOfferOf v) = some (ebayDecodedVariant v) := by
  have hnn : ¬ (ebayMetaPayload v = Json.null) := by
    rw [ebayMetaPayload]
    intro hx
    cases hx
  simp only [ebayVariantFromOffer, ebayOfferOf, parseSku_encode v h1 h2]
  rw [if_neg hnn]
  rfl

theorem ebayDecodedVariant_fields (v : CanonicalVariant)
    (hcid : v.canonicalId.truthy = true)
    (hwf : ∀ d, v.price = some d → d.wf) :
    (ebayDecodedVariant v).canonicalId = v.canonicalId
    ∧ (ebayDecodedVariant v).sku = v.sku
    ∧ (ebayDecodedVariant v).price = v.price
    ∧ (ebayDecodedVariant v).inventory = v.inventory := by
  refine ⟨?_, rfl, ?_, rfl⟩
  · simp [ebayDecodedVariant, ebayMetaPayload, Json.get, List.find?, jsonOrElse, hcid]
  · simp [ebayDecodedVariant, parseFloat_numChars hwf]

theorem mapM_map_some {α β γ : Type} (f : α → β) (g : β → Option γ) (h : α → γ) :
    ∀ (l : List α), (∀ x ∈ l, g (f x) = some (h x)) →
      (l.map f).mapM g = some (l.map h)
  | [], _ => rfl
  | x :: t, hx => by
      rw [List.map_cons, List.mapM_cons, hx x (by simp),
        mapM_map_some f g h t (fun y hy => hx y (by simp [hy]))]
      rfl

/-- An eBay round trip through the item-group representation preserves every
    variant's canonical id, SKU, price, and inventory, for variants with
    truthy canonical ids, canonical prices, and separator-free SKUs and
    payloads. -/
theorem ebayGroupRoundTrip (P : CanonicalProduct) (hlen : 2 ≤ P.variants.length)
    (hgood : ∀ v ∈ P.variants,
      includesSep META_SEPARATOR v.sku = false
      ∧ includesSep META_SEPARATOR (Json.stringify (ebayMetaPayload v)) = false
      ∧ v.canonicalId.truthy = true ∧ (∀ d, v.price = some d → d.wf)) :
    ∃ Q, ebayFromPlatform (ebayToPlatform P) = some Q
      ∧ Q.variants.map (·.canonicalId) = P.variants.map (·.canonicalId)
      ∧ Q.variants.map (·.sku) = P.variants.map (·.sku)
      ∧ Q.variants.map (·.price) = P.variants.map (·.price)
      ∧ Q.variants.map (·.inventory) = P.variants.map (·.inventory) := by
  have hmapM : (P.variants.map ebayOfferOf).mapM ebayVariantFromOffer
      = some (P.variants.map ebayDecodedVariant) :=
    mapM_map_some _ _ _ P.variants
      (fun v hv => ebayVariantFromOffer_encode v (hgood v hv).1 (hgood v hv).2.1)
  rcases hv : P.variants with _ | ⟨v1, _ | ⟨v2, rest⟩⟩
  · rw [hv] at hlen; simp at hlen
  · rw [hv] at hlen; simp at hlen
  · rw [hv] at hmapM
    have htp : ebayToPlatform P = .group
        { inventoryItemGroupKey :=
            strOr (strOrElse (optToStr (metaGet2 P.meta (st "ebay") (st "id"))) P.id)
              (replaceWsDash P.title)
          title := P.title
          description := P.description
          imageUrls := P.images.map (·.src)
          variantSKUs := ((v1 :: v2 :: rest).map ebayOfferOf).map (·.sku)
          offers := some ((v1 :: v2 :: rest).map ebayOfferOf) } := by
      simp [ebayToPlatform, hv, ebayOfferOf]
    rw [htp]
    simp only [ebayFromPlatform, ebayFromItemGroup, Option.getD_some, hmapM,
      Option.bind_eq_bind, Option.some_bind]
    refine ⟨_, rfl, ?_, ?_, ?_, ?_⟩ <;>
      · simp only [List.map_map]
        apply List.map_congr_left
        intro w hw
        have hfields := ebayDecodedVariant_fields w
          (hgood w (by rw [hv]; exact hw)).2.2.1 (hgood w (by rw [hv]; exact hw)).2.2.2
        simp only [Function.comp_apply]
        first
        | exact hfields.1
        | exact hfields.2.1
        | exact hfields.2.2.1
        | exact hfields.2.2.2

/-! ## Concrete records used by witnesses and counterexamples -/

/-- An empty-but-typed WooCommerce base record to build fixtures from. -/
def wooBase0 : WooBase :=
  { id := 85, name := st "Single", description := st "<p>L</p>",
    short_description := st "<p>S</p>",
    images := [⟨114, st "https://x/a.jpg", st "a.jpg", st ""⟩], status := st "publish",
    categories := some [⟨20, st "Music", st "music"⟩], tags := some [⟨21, st "Hot", st "hot"⟩],
    sku := st "woo-single", virtual := some true, shipping_required := some false,
    tax_status := some (st "taxable"), weight := some (st "5"), attributes := some [],
    stock_status := some (st "instock"),
    meta_data := some [(st "_canonicalMeta", .obj [(st "shopify", .obj [(st "id", .num 77)])])] }

/-- A WooCommerce simple product (on sale, unmanaged stock, in stock). -/
def wooSimpleR : WooProduct := .simple wooBase0 (st "3") (st "2") none

/-- A WooCommerce variation carrying a persisted canonical id and meta. -/
def wooVarA : WooVariant :=
  { id := 10, sku := st "hood-blue", regular_price := st "45", sale_price := st "",
    manage_stock := true, stock_quantity := some 3, stock_status := some (st "instock"),
    attributes := [⟨st "Color", st "Blue"⟩, ⟨st "Logo", st "Yes"⟩], image := none,
    meta_data := some [(st "_canonicalId", .str (st "CID-1")),
      (st "_canonicalVariantMeta", .obj [(st "shopify", .obj [(st "id", .num 5)])])] }

/-- A bare WooCommerce variation with no persisted canonical data. -/
def wooVarB : WooVariant :=
  { id := 11, sku := st "plat-sku-7", regular_price := st "45", sale_price := st "",
    manage_stock := false, stock_quantity := none, stock_status := some (st "outofstock"),
    attributes := [⟨st "Size", st "M"⟩], image := none, meta_data := none }

/-- A WooCommerce variable product. -/
def wooVariableR : WooProduct :=
  .variableW { wooBase0 with sku := st "woo-hoodie" } [wooVarA, wooVarB]

/-- The canonical product read from `wooSimpleR`. -/
def wooSimpleC : CanonicalProduct := (wooFromPlatform wooSimpleR).get (by decide)

/-- The canonical product read from `wooVariableR`. -/
def wooVariableC : CanonicalProduct := (wooFromPlatform wooVariableR).get (by decide)

/-- A Shopify variant record. -/
def shopifyV1 : ShopifyVariant :=
  { id := some (st "11"), title := st "Default Title", price := st "10.00",
    compare_at_price := none, sku := st "S1", inventory_quantity := 5,
    taxable := some true, requires_shipping := some true, image := none,
    inventory_management := none, inventory_policy := none,
    option1 := some (st "Default Title"), option2 := none, option3 := none }

/-- A one-variant Shopify record. -/
def shopifyR : ShopifyProduct :=
  { id := st "1", title := st "Tee", body_html := st "<p>d</p>",
    variants := [shopifyV1], images := [], options := none, status := some (st "active"),
    tags := some (st "a, b"), product_type := some (st "Shirt") }

/-- A second one-variant Shopify record (for a separate counterexample). -/
def shopifyR2 : ShopifyProduct :=
  { id := st "2", title := st "Tee", body_html := st "<p>d</p>",
    variants := [{ shopifyV1 with sku := st "S2" }], images := [], options := none,
    status := some (st "active"), tags := none, product_type := none }

/-- A remote variant row of the batched SKU lookup. -/
def evd1 : ExistingVariantData :=
  { productId := st "gid-1", variantId := st "v-11", price := st "10.00", inventory := 5,
    inventoryItemId := st "ii-11" }

/-- A SKU map resolving `"S1"` to `evd1`. -/
def skuMap1 : SkuMap := [(st "S1", evd1)]

/-- The variant `shopifyV1` with a desired inventory of 7 (price unchanged). -/
def shopifyV7 : ShopifyVariant := { shopifyV1 with inventory_quantity := 7 }

/-- The record `shopifyR` with desired inventory 7. -/
def shopifyR7 : ShopifyProduct := { shopifyR with variants := [shopifyV7] }

/-- A WooCommerce grouped record. -/
def wooGroupedR : WooProduct := .grouped { wooBase0 with id := 91 }

/-- A WooCommerce external record. -/
def wooExternalR : WooProduct := .external { wooBase0 with id := 92 }

/-- A canonical variant whose SKU itself contains the eBay metadata
    separator. -/
def cVarSep : CanonicalVariant :=
  { canonicalId := .str (st "cid-s"), title := st "Default Title",
    price := some ⟨false, 3, []⟩, compareAtPrice := none, attributes := none,
    sku := st "A::meta=\x7b\"canonicalId\":\"Z\"\x7d", inventory := some 2,
    manageStock := none, taxable := none, image := none, requiresShipping := none,
    meta := jEmpty }

/-- A one-variant canonical product built around `cVarSep`. -/
def cProdSep : CanonicalProduct :=
  { id := st "81", title := st "S", description := st "d", images := [], options := none,
    productType := none, status := none, tags := none, variants := [cVarSep],
    meta := jEmpty }

/-- A canonical variant fixture. -/
def cVarX : CanonicalVariant :=
  { canonicalId := .str (st "cid-x"), title := st "Default Title",
    price := some ⟨false, 12, [5]⟩, compareAtPrice := none, attributes := none,
    sku := st "X-1", inventory := some 4, manageStock := some true, taxable := some true,
    image := none, requiresShipping := some true,
    meta := .obj [(st "woo", .obj [(st "id", .num 9)])] }

/-- The variant `cVarX` with a title that itself contains the eBay metadata
    separator. -/
def cVarTsep : CanonicalVariant :=
  { cVarX with title := st "a::meta=b", sku := st "SKU1" }

/-- A one-variant canonical product carrying the persisted
    `meta.woo.productType = "variable"` flag. -/
def cProdFlag1 : CanonicalProduct :=
  { id := st "77", title := st "X", description := st "d", images := [], options := none,
    productType := none, status := some (st "active"), tags := none, variants := [cVarX],
    meta := .obj [(st "woo", .obj [(st "id", .num 3),
      (st "productType", .str (st "variable")), (st "parentSku", .str (st "PX"))])] }

/-- A two-variant canonical product with no persisted flag. -/
def cProd2 : CanonicalProduct :=
  { cProdFlag1 with variants := [cVarX, { cVarX with sku := st "X-2" }], meta := jEmpty }

/-- A one-variant canonical product with no persisted flag. -/
def cProdPlain1 : CanonicalProduct := { cProdFlag1 with meta := jEmpty }

/-! ## The claims -/

/-- C1: amended round-trip losslessness.  For any accepted WooCommerce record
    the composition `fromPlatform ∘ toPlatform ∘ fromPlatform` preserves every
    variant's canonicalId, SKU, price, and inventory; for any Shopify record it
    preserves every variant's SKU, price, and inventory — but not the
    canonicalIds, which `ShopifyAdapter.fromPlatform` freshly regenerates on
    every call (see the counterexample); for eBay the multi-variant group
    representation preserves all four fields when the SKUs and rendered
    payloads are separator-free, the canonical ids truthy, and the prices
    canonical (the single-variant item drops price and canonicalId — claim
    C10). -/
theorem claim1_round_trip (R : WooProduct) (P1 : CanonicalProduct)
    (hR : wooFromPlatform R = some P1) (S : ShopifyProduct) (ctr c2 : Nat)
    (E : CanonicalProduct) (hE : 2 ≤ E.variants.length)
    (hEgood : ∀ v ∈ E.variants,
      includesSep META_SEPARATOR v.sku = false
      ∧ includesSep META_SEPARATOR (Json.stringify (ebayMetaPayload v)) = false
      ∧ v.canonicalId.truthy = true ∧ (v.price.getD decZero).wf) :
    (∃ P2, wooFromPlatform (wooToPlatform P1) = some P2
      ∧ P2.variants.map (·.canonicalId) = P1.variants.map (·.canonicalId)
      ∧ P2.variants.map (·.sku) = P1.variants.map (·.sku)
      ∧ P2.variants.map (·.price) = P1.variants.map (·.price)
      ∧ P2.variants.map (·.inventory) = P1.variants.map (·.inventory))
    ∧ (((shopifyFromPlatform (shopifyToPlatform (shopifyFromPlatform S ctr).1) c2).1.variants.map
          (·.sku) = (shopifyFromPlatform S ctr).1.variants.map (·.sku))
      ∧ ((shopifyFromPlatform (shopifyToPlatform (shopifyFromPlatform S ctr).1) c2).1.variants.map
          (·.price) = (shopifyFromPlatform S ctr).1.variants.map (·.price))
      ∧ ((shopifyFromPlatform (shopifyToPlatform (shopifyFromPlatform S ctr).1) c2).1.variants.map
          (·.inventory) = (shopifyFromPlatform S ctr).1.variants.map (·.inventory)))
    ∧ (∃ Q, ebayFromPlatform (ebayToPlatform E) = some Q
      ∧ Q.variants.map (·.canonicalId) = E.variants.map (·.canonicalId)
      ∧ Q.variants.map (·.sku) = E.variants.map (·.sku)
      ∧ Q.variants.map (·.price) = E.variants.map (·.price)
      ∧ Q.variants.map (·.inventory) = E.variants.map (·.inventory)) :=
  ⟨wooRoundTrip R P1 hR, shopifyRoundTrip S ctr c2,
   ebayGroupRoundTrip E hE (fun v hv =>
     ⟨(hEgood v hv).1, (hEgood v hv).2.1, (hEgood v hv).2.2.1,
      fun d hd => by
        have hw := (hEgood v hv).2.2.2
        rw [hd, Option.getD_some] at hw
        exact hw⟩)⟩

/-- Witness for C1 at a concrete WooCommerce variable record and a concrete
    Shopify record. -/
theorem claim1_witness :
    (∃ P2, wooFromPlatform (wooToPlatform wooVariableC) = some P2
      ∧ P2.variants.map (·.canonicalId) = wooVariableC.variants.map (·.canonicalId)
      ∧ P2.variants.map (·.sku) = wooVariableC.variants.map (·.sku)
      ∧ P2.variants.map (·.price) = wooVariableC.variants.map (·.price)
      ∧ P2.variants.map (·.inventory) = wooVariableC.variants.map (·.inventory))
    ∧ (((shopifyFromPlatform (shopifyToPlatform (shopifyFromPlatform shopifyR 0).1) 5).1.variants.map
          (·.sku) = (shopifyFromPlatform shopifyR 0).1.variants.map (·.sku))
      ∧ ((shopifyFromPlatform (shopifyToPlatform (shopifyFromPlatform shopifyR 0).1) 5).1.variants.map
          (·.price) = (shopifyFromPlatform shopifyR 0).1.variants.map (·.price))
      ∧ ((shopifyFromPlatform (shopifyToPlatform (shopifyFromPlatform shopifyR 0).1) 5).1.variants.map
          (·.inventory) = (shopifyFromPlatform shopifyR 0).1.variants.map (·.inventory)))
    ∧ (∃ Q, ebayFromPlatform (ebayToPlatform cProd2) = some Q
      ∧ Q.variants.map (·.canonicalId) = cProd2.variants.map (·.canonicalId)
      ∧ Q.variants.map (·.sku) = cProd2.variants.map (·.sku)
      ∧ Q.variants.map (·.price) = cProd2.variants.map (·.price)
      ∧ Q.variants.map (·.inventory) = cProd2.variants.map (·.inventory)) :=
  claim1_round_trip wooVariableR wooVariableC (by decide) shopifyR 0 5
    cProd2 (by decide) (by decide)

/-- C1 fails as stated: a second Shopify `fromPlatform` pass over what
    `toPlatform` wrote yields different canonicalIds (`uuid-1` vs `uuid-0`)
    for the same concrete record. -/
theorem claim1_counterexample :
    (shopifyFromPlatform (shopifyToPlatform (shopifyFromPlatform shopifyR 0).1)
        ((shopifyFromPlatform shopifyR 0).2)).1.variants.map (·.canonicalId)
      ≠ (shopifyFromPlatform shopifyR 0).1.variants.map (·.canonicalId) := by decide

/-- C3: amended canonicalId persistence.  The WooCommerce adapter restores a
    truthy persisted `_canonicalId` verbatim (never regenerating it), and a
    full WooCommerce round trip keeps every canonicalId stable.  The claim's
    universal reading fails: with no persisted value the Woo adapter derives
    the canonicalId from the platform SKU (see the counterexample), and the
    Shopify adapter regenerates ids on every pass. -/
theorem claim3_canonical_id_persistence (base : WooBase) (vs : List WooVariant)
    (w : WooVariant) (hw : w ∈ vs) (j : Json)
    (hfind : findMeta w.meta_data (st "_canonicalId") = some j)
    (htruthy : j.truthy = true) (P1 : CanonicalProduct)
    (h1 : wooFromPlatform (.variableW base vs) = some P1) :
    (∃ v ∈ P1.variants, v.canonicalId = j ∧ v.sku = w.sku)
    ∧ (∃ P2, wooFromPlatform (wooToPlatform P1) = some P2
        ∧ P2.variants.map (·.canonicalId) = P1.variants.map (·.canonicalId)) := by
  constructor
  · have hP : P1.variants = vs.map (wooVariantFromPlatform base) := by
      simp only [wooFromPlatform, Option.some.injEq] at h1
      rw [← h1]
      rfl
    refine ⟨wooVariantFromPlatform base w, ?_, ?_, rfl⟩
    · rw [hP]; exact List.mem_map_of_mem _ hw
    · simp [wooVariantFromPlatform, hfind, jsonOrElse, htruthy]
  · obtain ⟨P2, h, hcid, _⟩ := wooRoundTrip _ _ h1
    exact ⟨P2, h, hcid⟩

/-- Witness for C3 at a concrete WooCommerce variable record whose first
    variation persists `_canonicalId = "CID-1"`. -/
theorem claim3_witness :
    (∃ v ∈ wooVariableC.variants, v.canonicalId = .str (st "CID-1") ∧ v.sku = wooVarA.sku)
    ∧ (∃ P2, wooFromPlatform (wooToPlatform wooVariableC) = some P2
        ∧ P2.variants.map (·.canonicalId) = wooVariableC.variants.map (·.canonicalId)) :=
  claim3_canonical_id_persistence { wooBase0 with sku := st "woo-hoodie" }
    [wooVarA, wooVarB] wooVarA (by decide) (.str (st "CID-1")) (by decide) (by decide)
    wooVariableC (by decide)

/-- C3 fails as stated: a variation with no persisted `_canonicalId` gets its
    canonicalId derived from a platform payload field — the platform SKU. -/
theorem claim3_counterexample :
    (wooFromPlatform (.variableW { wooBase0 with id := 93, meta_data := none } [wooVarB])).map
        (fun P => P.variants.map (·.canonicalId))
      = some [.str (st "plat-sku-7")] ∧ wooVarB.sku = st "plat-sku-7" := by decide

/-- C10: amended single-variant eBay emission.  For a one-variant canonical
    product the eBay adapter emits a single inventory item carrying the
    variant's SKU verbatim with no `::meta=` payload; reading that item back
    yields a variant whose canonicalId is the raw SKU, whose price is 0, and
    whose meta holds only the `ebay` entry — provided the SKU does not itself
    contain the separator (see the counterexample). -/
theorem claim10_ebay_single_item (P : CanonicalProduct) (v : CanonicalVariant)
    (hv : P.variants = [v]) (hsep : includesSep META_SEPARATOR v.sku = false) :
    ebayToPlatform P = .item
      { sku := v.sku, condition := st "NEW",
        product := ⟨P.title, P.description, P.images.map (·.src)⟩,
        quantity := v.inventory }
    ∧ ∃ Q, ebayFromPlatform (ebayToPlatform P) = some Q
        ∧ Q.variants.map (·.canonicalId) = [.str v.sku]
        ∧ Q.variants.map (·.price) = [some decZero]
        ∧ Q.variants.map (·.meta) = [Json.obj [(st "ebay", .obj [(st "sku", .str v.sku)])]] := by
  have htp : ebayToPlatform P = .item
      { sku := v.sku, condition := st "NEW",
        product := ⟨P.title, P.description, P.images.map (·.src)⟩,
        quantity := v.inventory } := by
    simp [ebayToPlatform, hv]
  have hnone : breakOnSep META_SEPARATOR v.sku = none := by
    rw [includesSep] at hsep
    cases h : breakOnSep META_SEPARATOR v.sku with
    | none => rfl
    | some x => rw [h] at hsep; simp at hsep
  have hps : parseSkuFn v.sku = (v.sku, jEmpty) := by
    rw [parseSkuFn, hnone]
  refine ⟨htp, ?_⟩
  rw [htp]
  simp [ebayFromPlatform, ebayFromSimpleItem, hps, jEmpty, Json.get, jsonOrElse,
    spreadWith, setField, Json.fieldsOf]

/-- Witness for C10 at a concrete one-variant canonical product. -/
theorem claim10_witness :
    ebayToPlatform cProdPlain1 = .item
      { sku := cVarX.sku, condition := st "NEW",
        product := ⟨cProdPlain1.title, cProdPlain1.description,
          cProdPlain1.images.map (·.src)⟩,
        quantity := cVarX.inventory }
    ∧ ∃ Q, ebayFromPlatform (ebayToPlatform cProdPlain1) = some Q
        ∧ Q.variants.map (·.canonicalId) = [.str cVarX.sku]
        ∧ Q.variants.map (·.price) = [some decZero]
        ∧ Q.variants.map (·.meta) = [Json.obj [(st "ebay", .obj [(st "sku", .str cVarX.sku)])]] :=
  claim10_ebay_single_item cProdPlain1 cVarX (by decide) (by decide)

/-- C9: fromPlatform is merge-additive on restored metadata.  The WooCommerce
    adapter spreads the persisted `_canonicalMeta` — on both the variable and
    the simple path — and the per-variant `_canonicalVariantMeta`, overwriting
    only the `woo` entry; the eBay adapter spreads the restored payload `meta`
    at product and variant level for both the item group's offers and the
    single inventory item, overwriting only the `ebay` entry.  Every other
    platform's entry of the restored map is looked up unchanged in the
    result.  (A Shopify record has no field carrying persisted canonical
    metadata, so there is nothing to merge there.) -/
theorem claim9_meta_merge_additive :
    (∀ (base : WooBase) (vs : List WooVariant) (P : CanonicalProduct),
      wooFromPlatform (.variableW base vs) = some P →
      (∀ k, k ≠ st "woo" →
        P.meta.get k
          = (jsonOrElse (findMeta base.meta_data (st "_canonicalMeta")) jEmpty).get k)
      ∧ P.meta.get (st "woo") = some (wooProductMetaEntry (.variableW base vs)))
    ∧ (∀ (base : WooBase) (rp sp : Str) (sq : Option Int) (P : CanonicalProduct),
      wooFromPlatform (.simple base rp sp sq) = some P →
      (∀ k, k ≠ st "woo" →
        P.meta.get k
          = (jsonOrElse (findMeta base.meta_data (st "_canonicalMeta")) jEmpty).get k)
      ∧ P.meta.get (st "woo") = some (wooProductMetaEntry (.simple base rp sp sq)))
    ∧ (∀ (base : WooBase) (w : WooVariant),
      (∀ k, k ≠ st "woo" →
        (wooVariantFromPlatform base w).meta.get k
          = (jsonOrElse (findMeta w.meta_data (st "_canonicalVariantMeta")) jEmpty).get k)
      ∧ (wooVariantFromPlatform base w).meta.get (st "woo")
          = some (.obj [(st "id", .num w.id)]))
    ∧ (∀ (offer : EbayOfferDetails) (v : CanonicalVariant),
      ebayVariantFromOffer offer = some v →
      (∀ k, k ≠ st "ebay" →
        v.meta.get k
          = (jsonOrElse ((parseSkuFn offer.sku).2.get (st "meta")) jEmpty).get k)
      ∧ v.meta.get (st "ebay") = some (.obj [(st "sku", .str offer.sku)]))
    ∧ (∀ (item : EbayInventoryItem) (Q : CanonicalProduct),
      ebayFromSimpleItem item = some Q →
      (∀ k, k ≠ st "ebay" →
        Q.meta.get k
          = (jsonOrElse ((parseSkuFn item.sku).2.get (st "meta")) jEmpty).get k)
      ∧ Q.meta.get (st "ebay") = some (.obj [(st "id", .str item.sku)]))
    ∧ (∀ (item : EbayInventoryItem) (Q : CanonicalProduct),
      ebayFromSimpleItem item = some Q →
      ∀ v ∈ Q.variants,
        (∀ k, k ≠ st "ebay" →
          v.meta.get k
            = (jsonOrElse ((parseSkuFn item.sku).2.get (st "meta")) jEmpty).get k)
        ∧ v.meta.get (st "ebay") = some (.obj [(st "sku", .str item.sku)])) := by
  refine ⟨?_, ?_, ?_, ?_, ?_, ?_⟩
  · intro base vs P h
    have hm : P.meta = spreadWith
        (jsonOrElse (findMeta base.meta_data (st "_canonicalMeta")) jEmpty)
        (st "woo") (wooProductMetaEntry (.variableW base vs)) := by
      simp only [wooFromPlatform, Option.some.injEq] at h
      rw [← h]
      rfl
    rw [hm]
    exact ⟨fun k hk => spreadWith_get_other _ _ _ _ (Ne.symm hk), spreadWith_get_self _ _ _⟩
  · intro base rp sp sq P h
    have hm : P.meta = spreadWith
        (jsonOrElse (findMeta base.meta_data (st "_canonicalMeta")) jEmpty)
        (st "woo") (wooProductMetaEntry (.simple base rp sp sq)) := by
      simp only [wooFromPlatform, Option.some.injEq] at h
      rw [← h]
      rfl
    rw [hm]
    exact ⟨fun k hk => spreadWith_get_other _ _ _ _ (Ne.symm hk), spreadWith_get_self _ _ _⟩
  · intro base w
    have hm : (wooVariantFromPlatform base w).meta = spreadWith
        (jsonOrElse (findMeta w.meta_data (st "_canonicalVariantMeta")) jEmpty)
        (st "woo") (.obj [(st "id", .num w.id)]) := rfl
    rw [hm]
    exact ⟨fun k hk => spreadWith_get_other _ _ _ _ (Ne.symm hk), spreadWith_get_self _ _ _⟩
  · intro offer v h
    simp only [ebayVariantFromOffer] at h
    split at h
    · exact absurd h (by simp)
    · simp only [Option.some.injEq] at h
      rw [← h]
      exact ⟨fun k hk => spreadWith_get_other _ _ _ _ (Ne.symm hk), spreadWith_get_self _ _ _⟩
  · intro item Q h
    simp only [ebayFromSimpleItem] at h
    split at h
    · exact absurd h (by simp)
    · simp only [Option.some.injEq] at h
      rw [← h]
      exact ⟨fun k hk => spreadWith_get_other _ _ _ _ (Ne.symm hk), spreadWith_get_self _ _ _⟩
  · intro item Q h
    simp only [ebayFromSimpleItem] at h
    split at h
    · exact absurd h (by simp)
    · simp only [Option.some.injEq] at h
      intro v hv
      rw [← h] at hv
      simp only [List.mem_singleton] at hv
      subst hv
      exact ⟨fun k hk => spreadWith_get_other _ _ _ _ (Ne.symm hk), spreadWith_get_self _ _ _⟩

/-- Witness for C9: the persisted `shopify` entry survives a WooCommerce read
    at a concrete variable record and at a concrete simple record, next to the
    fresh `woo` entry. -/
theorem claim9_witness :
    (wooVariableC.meta.get (st "shopify")
      = (jsonOrElse (findMeta ({ wooBase0 with sku := st "woo-hoodie" } : WooBase).meta_data
          (st "_canonicalMeta")) jEmpty).get (st "shopify")
    ∧ wooVariableC.meta.get (st "woo")
      = some (wooProductMetaEntry (.variableW { wooBase0 with sku := st "woo-hoodie" }
          [wooVarA, wooVarB])))
    ∧ (wooSimpleC.meta.get (st "shopify")
      = (jsonOrElse (findMeta (wooBase0 : WooBase).meta_data
          (st "_canonicalMeta")) jEmpty).get (st "shopify")
    ∧ wooSimpleC.meta.get (st "woo")
      = some (wooProductMetaEntry (.simple wooBase0 (st "3") (st "2") none))) :=
  ⟨⟨((claim9_meta_merge_additive.1 { wooBase0 with sku := st "woo-hoodie" }
      [wooVarA, wooVarB] wooVariableC (by decide)).1 (st "shopify") (by decide)),
    (claim9_meta_merge_additive.1 { wooBase0 with sku := st "woo-hoodie" }
      [wooVarA, wooVarB] wooVariableC (by decide)).2⟩,
   ⟨((claim9_meta_merge_additive.2.1 wooBase0 (st "3") (st "2") none
      wooSimpleC (by decide)).1 (st "shopify") (by decide)),
    (claim9_meta_merge_additive.2.1 wooBase0 (st "3") (st "2") none
      wooSimpleC (by decide)).2⟩⟩

/-- C10 fails as stated: a single-variant SKU that already contains the
    separator is reinterpreted on read — the decoded canonicalId (`"Z"`) and
    SKU (`"A"`) no longer match the raw emitted SKU. -/
theorem claim10_counterexample :
    (ebayFromPlatform (ebayToPlatform cProdSep)).map
        (fun Q => (Q.variants.map (·.canonicalId), Q.variants.map (·.sku)))
      = some ([.str (st "Z")], [st "A"])
    ∧ cProdSep.variants.map (·.sku) = [st "A::meta=\x7b\"canonicalId\":\"Z\"\x7d"] := by
  decide

/-- C2: WooAdapter.toPlatform's output type is determined by the persisted
    `meta.woo.productType` flag and the variant count: a one-variant product
    carrying the `"variable"` flag serializes as `variable` (never `simple`),
    two or more variants always serialize as `variable`, and a one-variant
    product without the flag serializes as `simple`. -/
theorem claim2_woo_type_determinism (P : CanonicalProduct) :
    (P.variants.length = 1 →
      metaGet2 P.meta (st "woo") (st "productType") = some (.str (st "variable")) →
      (wooToPlatform P).typeStr = st "variable")
    ∧ (2 ≤ P.variants.length → (wooToPlatform P).typeStr = st "variable")
    ∧ (P.variants.length = 1 →
      metaGet2 P.meta (st "woo") (st "productType") ≠ some (.str (st "variable")) →
      (wooToPlatform P).typeStr = st "simple") := by
  refine ⟨?_, ?_, ?_⟩
  · intro h1 h2
    rcases hv : P.variants with _ | ⟨v, _ | ⟨w, rest⟩⟩
    · rw [hv] at h1; simp at h1
    · simp [wooToPlatform, hv, h2, WooProduct.typeStr]
    · rw [hv] at h1; simp at h1
  · intro h1
    rcases hv : P.variants with _ | ⟨v, _ | ⟨w, rest⟩⟩
    · rw [hv] at h1; simp at h1
    · rw [hv] at h1; simp at h1
    · simp [wooToPlatform, hv, WooProduct.typeStr]
  · intro h1 h2
    rcases hv : P.variants with _ | ⟨v, _ | ⟨w, rest⟩⟩
    · rw [hv] at h1; simp at h1
    · simp [wooToPlatform, hv, WooProduct.typeStr, if_neg h2]
    · rw [hv] at h1; simp at h1

/-- Witness for C2 at three concrete canonical products. -/
theorem claim2_witness :
    ((wooToPlatform cProdFlag1).typeStr = st "variable")
    ∧ ((wooToPlatform cProd2).typeStr = st "variable")
    ∧ ((wooToPlatform cProdPlain1).typeStr = st "simple") :=
  ⟨(claim2_woo_type_determinism cProdFlag1).1 (by decide) (by decide),
   (claim2_woo_type_determinism cProd2).2.1 (by decide),
   (claim2_woo_type_determinism cProdPlain1).2.2 (by decide) (by decide)⟩

/-- C4: amended eBay SKU codec round trip.  Encoding a variant's
    `{canonicalId, title, meta}` payload into the SKU and decoding it
    reproduces the payload and the original SKU exactly, provided neither the
    SKU nor the rendered payload contains the separator `::meta=` (a payload
    containing it is truncated at decode time — see the counterexample); and
    decoding any SKU whose post-separator segment is not valid JSON never
    throws, returning the part before the first separator with an empty
    metadata object. -/
theorem claim4_ebay_sku_codec :
    (∀ (v : CanonicalVariant),
      includesSep META_SEPARATOR v.sku = false →
      includesSep META_SEPARATOR (Json.stringify (ebayMetaPayload v)) = false →
      parseSkuFn (ebayEncodeSku v) = (v.sku, ebayMetaPayload v))
    ∧ (∀ (sku b a : Str),
      breakOnSep META_SEPARATOR sku = some (b, a) →
      jsonParse (match breakOnSep META_SEPARATOR a with
        | none => a
        | some (x, _) => x) = none →
      parseSkuFn sku = (b, jEmpty)
        ∧ sku = b ++ (META_SEPARATOR ++ a)
        ∧ includesSep META_SEPARATOR b = false) := by
  constructor
  · intro v h1 h2
    have hS : breakOnSep META_SEPARATOR (Json.stringify (ebayMetaPayload v)) = none := by
      cases hx : breakOnSep META_SEPARATOR (Json.stringify (ebayMetaPayload v)) with
      | none => rfl
      | some q => rw [includesSep, hx] at h2; simp at h2
    have hb : breakOnSep META_SEPARATOR (ebayEncodeSku v)
        = some (v.sku, Json.stringify (ebayMetaPayload v)) := by
      rw [ebayEncodeSku, List.append_assoc]
      exact breakOnSep_append META_SEPARATOR (by decide) (by decide) _ _ h1
    simp only [parseSkuFn, hb, hS, jsonParse_stringify]
  · intro sku b a hb hj
    obtain ⟨hdec, hinc⟩ := breakOnSep_decomp META_SEPARATOR sku b a hb
    refine ⟨?_, hdec, hinc⟩
    simp only [parseSkuFn, hb]
    cases hxa : breakOnSep META_SEPARATOR a with
    | none =>
        rw [hxa] at hj
        simp only [hxa]
        rw [hj]
    | some pr =>
        rw [hxa] at hj
        simp only [hxa]
        cases pr with
        | mk x y =>
            simp only at hj ⊢
            rw [hj]

/-- Witness for C4: the round trip at a concrete separator-free variant and
    the fallback at a concrete SKU with a non-JSON segment. -/
theorem claim4_witness :
    parseSkuFn (ebayEncodeSku cVarX) = (cVarX.sku, ebayMetaPayload cVarX)
    ∧ (parseSkuFn (st "A::meta=notjson") = (st "A", jEmpty)
      ∧ st "A::meta=notjson" = st "A" ++ (META_SEPARATOR ++ st "notjson")
      ∧ includesSep META_SEPARATOR (st "A") = false) :=
  ⟨claim4_ebay_sku_codec.1 cVarX (by decide) (by decide),
   claim4_ebay_sku_codec.2 (st "A::meta=notjson") (st "A") (st "notjson")
     (by decide) (by decide)⟩

/-- C4 fails as stated: a payload whose title contains `::meta=` encodes into
    a SKU that decodes to an empty metadata object, not the payload. -/
theorem claim4_counterexample :
    (parseSkuFn (ebayEncodeSku cVarTsep)).1 = cVarTsep.sku
    ∧ (parseSkuFn (ebayEncodeSku cVarTsep)).2 ≠ ebayMetaPayload cVarTsep
    ∧ (parseSkuFn (ebayEncodeSku cVarTsep)).2 = jEmpty := by decide

/-- C5: reading a WooCommerce simple product or any variation of a variable
    product, a `null` stock_quantity with stock_status `"instock"` becomes a
    canonical inventory of 1; otherwise the reported stock_quantity is used
    verbatim (so `null` with `"outofstock"` stays `null`). -/
theorem claim5_stock_inference (base : WooBase) (rp sp : Str) (sq : Option Int)
    (vs : List WooVariant) :
    ((wooFromPlatform (.simple base rp sp sq)).map (fun P => P.variants.map (·.inventory))
       = some [if sq = none ∧ base.stock_status = some (st "instock") then some 1 else sq])
    ∧ ((wooFromPlatform (.variableW base vs)).map (fun P => P.variants.map (·.inventory))
       = some (vs.map (fun w =>
           if w.stock_quantity = none ∧ w.stock_status = some (st "instock") then some 1
           else w.stock_quantity))) := by
  constructor
  · simp [wooFromPlatform, wooSimpleVariant, wooInferInventory, WooProduct.base]
  · simp [wooFromPlatform, WooProduct.base, List.map_map]
    intro w _
    simp [wooVariantFromPlatform, wooInferInventory, Function.comp]

/-- C6: the reconciler's update path performs a minimal diff.  Every entry in
    a successful plan's `variantsToUpdate` has a price or inventory that
    actually differs from the remote value (the comparison `Number(existing)
    !== Number(desired)` or an integer inequality), the price mutation keeps
    only entries whose price string differs, the inventory mutation only
    entries whose inventory differs; for remote price `"10.00"`/inventory 5
    against desired `"10.00"`/7 this yields an inventory-only update. -/
theorem claim6_minimal_diff (p : ShopifyProduct) (m : SkuMap) (plan : UpdatePlan)
    (hplan : updateSingleProduct p m = some plan) :
    (∀ u ∈ plan.variantsToUpdate, entryChanged u)
    ∧ (∀ u ∈ priceUpdates plan.variantsToUpdate, u.existing.price ≠ u.newPrice)
    ∧ (∀ u ∈ inventoryUpdates plan.variantsToUpdate, u.existing.inventory ≠ u.newInventory)
    ∧ (priceUpdates (updateScan skuMap1 shopifyR7.variants).variantsToUpdate = []
      ∧ inventoryUpdates (updateScan skuMap1 shopifyR7.variants).variantsToUpdate
          = [⟨evd1, st "10.00", 7⟩]) := by
  have hps : plan = updateScan m p.variants := by
    rw [updateSingleProduct] at hplan
    split at hplan
    · simp at hplan
    · simp only [Option.some.injEq] at hplan; exact hplan.symm
  subst hps
  refine ⟨?_, ?_, ?_, by decide⟩
  · rw [updateScan]
    exact foldl_toUpdate_gate m p.variants ⟨[], [], none, 0⟩ (by simp)
  · intro u hu
    rw [priceUpdates] at hu
    exact of_decide_eq_true (List.mem_filter.mp hu).2
  · intro u hu
    rw [inventoryUpdates] at hu
    exact of_decide_eq_true (List.mem_filter.mp hu).2

/-- Witness for C6 at a concrete product and SKU map (the claim's own
    scenario: remote `"10.00"`/5 against desired `"10.00"`/7). -/
theorem claim6_witness :
    (∀ u ∈ (updateScan skuMap1 shopifyR7.variants).variantsToUpdate, entryChanged u)
    ∧ (∀ u ∈ priceUpdates (updateScan skuMap1 shopifyR7.variants).variantsToUpdate,
        u.existing.price ≠ u.newPrice)
    ∧ (∀ u ∈ inventoryUpdates (updateScan skuMap1 shopifyR7.variants).variantsToUpdate,
        u.existing.inventory ≠ u.newInventory)
    ∧ (priceUpdates (updateScan skuMap1 shopifyR7.variants).variantsToUpdate = []
      ∧ inventoryUpdates (updateScan skuMap1 shopifyR7.variants).variantsToUpdate
          = [⟨evd1, st "10.00", 7⟩]) :=
  claim6_minimal_diff shopifyR7 skuMap1 (updateScan skuMap1 shopifyR7.variants) (by decide)

/-- C7: syncProducts routing.  A submitted product with at least one remotely
    resolving variant SKU goes to the update path and not to the create path;
    its plan collects unmatched variants for appending to the matched parent
    (and exactly those), collects every matched-and-changed variant for an
    in-place update, and resolves the parent product id; only products with
    zero matched SKUs are routed to the create path (the map's rows carry
    truthy product ids). -/
theorem claim7_routing (products : List ShopifyProduct) (m : SkuMap) (p : ShopifyProduct)
    (hp : p ∈ products) (hmatch : hasExistingVariant m p = true)
    (htruthy : ∀ e ∈ m, strTruthy e.2.productId = true) :
    (p ∈ (syncRoute products m).productsToUpdate
      ∧ p ∉ (syncRoute products m).productsToCreate)
    ∧ (∃ plan, updateSingleProduct p m = some plan
        ∧ (∀ v ∈ p.variants, skuLookup m v.sku = none → v ∈ plan.variantsToCreate)
        ∧ (∀ v ∈ plan.variantsToCreate, v ∈ p.variants ∧ skuLookup m v.sku = none)
        ∧ (∀ v ∈ p.variants, ∀ e, skuLookup m v.sku = some e →
            entryChanged ⟨e, v.price, v.inventory_quantity⟩ →
            (⟨e, v.price, v.inventory_quantity⟩ : VariantUpdate) ∈ plan.variantsToUpdate)
        ∧ optStrTruthy plan.existingProductId = true)
    ∧ (∀ q ∈ (syncRoute products m).productsToCreate, hasExistingVariant m q = false) := by
  obtain ⟨v0, hv0, hl0⟩ : ∃ v, v ∈ p.variants ∧ (skuLookup m v.sku).isSome = true := by
    rw [hasExistingVariant, List.any_eq_true] at hmatch
    exact hmatch
  have hsku : v0.sku ∈ products.flatMap (fun q => q.variants.map (·.sku)) :=
    List.mem_flatMap.mpr ⟨p, hp, List.mem_map_of_mem _ hv0⟩
  have hlen : ¬ (products.flatMap (fun q => q.variants.map (·.sku))).length = 0 := by
    intro h0
    rw [List.length_eq_zero] at h0
    rw [h0] at hsku
    simp at hsku
  have hroute : syncRoute products m =
      { productsToCreate := products.filter (fun q => ¬ hasExistingVariant m q)
        productsToUpdate := products.filter (fun q => hasExistingVariant m q) } := by
    rw [syncRoute]
    exact if_neg hlen
  refine ⟨⟨?_, ?_⟩, ?_, ?_⟩
  · rw [hroute]
    exact List.mem_filter.mpr ⟨hp, by simp [hmatch]⟩
  · rw [hroute]
    intro hc
    have := (List.mem_filter.mp hc).2
    simp [hmatch] at this
  · have htr : ∀ s e, skuLookup m s = some e → strTruthy e.productId = true := by
      intro s e h
      obtain ⟨k, hk⟩ := skuLookup_mem h
      exact htruthy (k, e) hk
    obtain ⟨e0, he0⟩ := Option.isSome_iff_exists.mp hl0
    have hparent : optStrTruthy (updateScan m p.variants).existingProductId = true := by
      rw [updateScan]
      exact foldl_parent_set m p.variants ⟨[], [], none, 0⟩ v0 hv0 e0 he0 (htr _ _ he0)
    refine ⟨updateScan m p.variants, ?_, ?_, ?_, ?_, hparent⟩
    · rw [updateSingleProduct]
      have : ¬ (¬ optStrTruthy (updateScan m p.variants).existingProductId = true
          ∧ ((updateScan m p.variants).variantsToUpdate ≠ []
            ∨ (updateScan m p.variants).variantsToCreate ≠ [])) := by
        simp [hparent]
      rw [if_neg this]
    · intro v hv hn
      rw [updateScan]
      exact foldl_creates_match m p.variants ⟨[], [], none, 0⟩ v hv hn
    · intro v hvc
      rw [updateScan] at hvc
      rcases foldl_creates_sub m p.variants ⟨[], [], none, 0⟩ v hvc with h | h
      · simp at h
      · exact h
    · intro v hv e he hch
      rw [updateScan]
      exact foldl_toUpdate_match m p.variants ⟨[], [], none, 0⟩ v hv e he hch
  · intro q hq
    rw [hroute] at hq
    have := (List.mem_filter.mp hq).2
    simpa using this

/-- Witness for C7 at a concrete one-product batch whose single variant SKU
    resolves remotely. -/
theorem claim7_witness :
    (shopifyR ∈ (syncRoute [shopifyR] skuMap1).productsToUpdate
      ∧ shopifyR ∉ (syncRoute [shopifyR] skuMap1).productsToCreate)
    ∧ (∃ plan, updateSingleProduct shopifyR skuMap1 = some plan
        ∧ (∀ v ∈ shopifyR.variants, skuLookup skuMap1 v.sku = none →
            v ∈ plan.variantsToCreate)
        ∧ (∀ v ∈ plan.variantsToCreate, v ∈ shopifyR.variants
            ∧ skuLookup skuMap1 v.sku = none)
        ∧ (∀ v ∈ shopifyR.variants, ∀ e, skuLookup skuMap1 v.sku = some e →
            entryChanged ⟨e, v.price, v.inventory_quantity⟩ →
            (⟨e, v.price, v.inventory_quantity⟩ : VariantUpdate) ∈ plan.variantsToUpdate)
        ∧ optStrTruthy plan.existingProductId = true)
    ∧ (∀ q ∈ (syncRoute [shopifyR] skuMap1).productsToCreate,
        hasExistingVariant skuMap1 q = false) :=
  claim7_routing [shopifyR] skuMap1 shopifyR (by decide) (by decide) (by decide)

/-- C8: grouped and external WooCommerce records make fromPlatform return the
    SKIP sentinel together with a warning (it never throws: the function is
    total), while simple and variable records always yield a canonical
    product. -/
theorem claim8_skip_unsupported (R : WooProduct) :
    (R.typeStr = st "grouped" ∨ R.typeStr = st "external" →
      wooFromPlatform R = none ∧ (wooSkipWarning R).isSome = true)
    ∧ (R.typeStr = st "simple" ∨ R.typeStr = st "variable" →
      ∃ P, wooFromPlatform R = some P) := by
  cases R with
  | simple base rp sp sq =>
      refine ⟨fun h => ?_, fun _ => ⟨_, rfl⟩⟩
      rcases h with h | h <;> simp [WooProduct.typeStr, st] at h
  | variableW base vs =>
      refine ⟨fun h => ?_, fun _ => ⟨_, rfl⟩⟩
      rcases h with h | h <;> simp [WooProduct.typeStr, st] at h
  | grouped base =>
      refine ⟨fun _ => ⟨rfl, rfl⟩, fun h => ?_⟩
      rcases h with h | h <;> simp [WooProduct.typeStr, st] at h
  | external base =>
      refine ⟨fun _ => ⟨rfl, rfl⟩, fun h => ?_⟩
      rcases h with h | h <;> simp [WooProduct.typeStr, st] at h

/-- Witness for C8 at a concrete grouped and a concrete simple record. -/
theorem claim8_witness :
    (wooFromPlatform wooGroupedR = none ∧ (wooSkipWarning wooGroupedR).isSome = true)
    ∧ (∃ P, wooFromPlatform wooSimpleR = some P) :=
  ⟨(claim8_skip_unsupported wooGroupedR).1 (Or.inl rfl),
   (claim8_skip_unsupported wooSimpleR).2 (Or.inl rfl)⟩

end ProductSync
